import Mathlib

/-!
Shallow embedding of the LLAMA-OCR WhatsApp chat parser / image-to-contact
correlator (src/whatsapp_parser.py) and the month filter (src/main.py).

Python dictionaries are modelled as association lists with in-place update
(`dinsert`), which preserves Python 3.7+ insertion-order semantics.
Python regular-expression matching is modelled by specialised matchers that
follow the leftmost-match / ordered-alternation semantics of `re`.
Functions that can raise an uncaught exception are modelled as
`Option`-valued, `none` standing for the raised exception.
Transcripts are modelled as their list of lines (Python's text-mode line
iteration splits on newlines, so individual lines contain no newline
character).
-/

namespace LlamaOcr

/-- Python's `\s` character class (ASCII part: space, tab, newline, carriage
return, vertical tab, form feed). -/
def pythonIsSpace (c : Char) : Bool :=
  c = ' ' || c = '\t' || c = '\n' || c = '\r' || c = '\x0b' || c = '\x0c'

/-- Python's `str.strip()` on a line (whitespace stripped from both ends). -/
def pstrip (s : String) : String :=
  ⟨((s.data.dropWhile pythonIsSpace).reverse.dropWhile pythonIsSpace).reverse⟩

/-- Python dict assignment `d[k] = v`: replace the value in place when the key
is present (keeping its position), otherwise append the new binding. -/
def dinsert (k : String) (v : α) : List (String × α) → List (String × α)
  | [] => [(k, v)]
  | (k', v') :: rest => if k' = k then (k, v) :: rest else (k', v') :: dinsert k v rest

/-- Python dict lookup `d.get(k)` / `d[k]`. -/
def dlookup (k : String) : List (String × α) → Option α
  | [] => none
  | (k', v') :: rest => if k' = k then some v' else dlookup k rest

/-- Keys of a modelled dict, in insertion order. -/
def dkeys (l : List (String × α)) : List String :=
  l.map Prod.fst

/-- Numeric value of a digit string (the strings fed to this are
regex-captured digit runs). -/
def natOfDigits (cs : List Char) : Nat :=
  cs.foldl (fun n c => n * 10 + (c.toNat - '0'.toNat)) 0

/-- Python `int()` restricted to the plain digit strings that occur here;
`none` models the `ValueError` raised on a non-numeric string. -/
def pyInt (s : String) : Option Nat :=
  if s.data ≠ [] ∧ s.data.all Char.isDigit then some (natOfDigits s.data) else none

/-- Python `os.path.basename` on POSIX: the part after the last `/`. -/
def basename (p : String) : String :=
  ⟨(p.data.reverse.takeWhile (· ≠ '/')).reverse⟩

/-- Python `str.split(sep)` for a one-character separator. -/
def splitOnCharAux (sep : Char) : List Char → List Char → List (List Char)
  | acc, [] => [acc.reverse]
  | acc, c :: rest =>
    if c = sep then acc.reverse :: splitOnCharAux sep [] rest
    else splitOnCharAux sep (c :: acc) rest

/-- Python `str.split(sep)` for a one-character separator, on strings. -/
def splitOnChar (sep : Char) (s : String) : List String :=
  (splitOnCharAux sep [] s.data).map String.mk

/-- Gregorian leap year, as used by `datetime.date`. -/
def isLeapYear (y : Nat) : Bool :=
  y % 4 = 0 && (y % 100 ≠ 0 || y % 400 = 0)

/-- Number of days in a month, as validated by `datetime.date`. -/
def daysInMonth (y m : Nat) : Nat :=
  if m = 2 then (if isLeapYear y then 29 else 28)
  else if m = 4 ∨ m = 6 ∨ m = 9 ∨ m = 11 then 30 else 31

/-- A calendar date as produced by `datetime.strptime` (already validated). -/
structure Date where
  y : Nat
  m : Nat
  d : Nat
deriving DecidableEq, Repr

/-- Proleptic-Gregorian day number (days-from-civil); differences of this
function agree with Python's `(date1 - date2).days`. -/
def rataDie (dt : Date) : Int :=
  let yy : Nat := if dt.m ≤ 2 then dt.y - 1 else dt.y
  let era : Nat := yy / 400
  let yoe : Nat := yy % 400
  let mp : Nat := (dt.m + 9) % 12
  let doy : Nat := (153 * mp + 2) / 5 + dt.d - 1
  let doe : Nat := yoe * 365 + yoe / 4 - yoe / 100 + doy
  (era * 146097 + doe : Int) - 719468

/-- Scanner for strptime's `%d` directive, regex `(3[01]|[12]\d|0[1-9]|[1-9])`
with ordered alternation. -/
def scanDay : List Char → Option (Nat × List Char)
  | c0 :: c1 :: rest =>
    if c0 = '3' ∧ (c1 = '0' ∨ c1 = '1') then some (30 + (c1.toNat - '0'.toNat), rest)
    else if (c0 = '1' ∨ c0 = '2') ∧ c1.isDigit then
      some ((c0.toNat - '0'.toNat) * 10 + (c1.toNat - '0'.toNat), rest)
    else if c0 = '0' ∧ c1.isDigit ∧ c1 ≠ '0' then some (c1.toNat - '0'.toNat, rest)
    else if c0.isDigit ∧ c0 ≠ '0' then some (c0.toNat - '0'.toNat, c1 :: rest)
    else none
  | [c0] => if c0.isDigit ∧ c0 ≠ '0' then some (c0.toNat - '0'.toNat, []) else none
  | [] => none

/-- Scanner for strptime's `%m` directive, regex `(1[0-2]|0[1-9]|[1-9])`. -/
def scanMonth : List Char → Option (Nat × List Char)
  | c0 :: c1 :: rest =>
    if c0 = '1' ∧ (c1 = '0' ∨ c1 = '1' ∨ c1 = '2') then some (10 + (c1.toNat - '0'.toNat), rest)
    else if c0 = '0' ∧ c1.isDigit ∧ c1 ≠ '0' then some (c1.toNat - '0'.toNat, rest)
    else if c0.isDigit ∧ c0 ≠ '0' then some (c0.toNat - '0'.toNat, c1 :: rest)
    else none
  | [c0] => if c0.isDigit ∧ c0 ≠ '0' then some (c0.toNat - '0'.toNat, []) else none
  | [] => none

/-- Scanner for strptime's `%y` directive, regex `(\d\d)`. -/
def scanTwoDigits : List Char → Option (Nat × List Char)
  | c0 :: c1 :: rest =>
    if c0.isDigit ∧ c1.isDigit then
      some ((c0.toNat - '0'.toNat) * 10 + (c1.toNat - '0'.toNat), rest)
    else none
  | _ => none

/-- Scanner for strptime's `%Y` directive, regex `(\d\d\d\d)`. -/
def scanFourDigits : List Char → Option (Nat × List Char)
  | c0 :: c1 :: c2 :: c3 :: rest =>
    if c0.isDigit ∧ c1.isDigit ∧ c2.isDigit ∧ c3.isDigit then
      some (natOfDigits [c0, c1, c2, c3], rest)
    else none
  | _ => none

/-- Scanner for strptime's `%H` directive, regex `(2[0-3]|[0-1]\d|\d)`. -/
def scanHour : List Char → Option (Nat × List Char)
  | c0 :: c1 :: rest =>
    if c0 = '2' ∧ (c1 = '0' ∨ c1 = '1' ∨ c1 = '2' ∨ c1 = '3') then
      some (20 + (c1.toNat - '0'.toNat), rest)
    else if (c0 = '0' ∨ c0 = '1') ∧ c1.isDigit then
      some ((c0.toNat - '0'.toNat) * 10 + (c1.toNat - '0'.toNat), rest)
    else if c0.isDigit then some (c0.toNat - '0'.toNat, c1 :: rest)
    else none
  | [c0] => if c0.isDigit then some (c0.toNat - '0'.toNat, []) else none
  | [] => none

/-- Scanner for strptime's `%M` and `%S` directives, regex `([0-5]\d|\d)`. -/
def scanMinSec : List Char → Option (Nat × List Char)
  | c0 :: c1 :: rest =>
    if c0.isDigit ∧ c0.toNat - '0'.toNat ≤ 5 ∧ c1.isDigit then
      some ((c0.toNat - '0'.toNat) * 10 + (c1.toNat - '0'.toNat), rest)
    else if c0.isDigit then some (c0.toNat - '0'.toNat, c1 :: rest)
    else none
  | [c0] => if c0.isDigit then some (c0.toNat - '0'.toNat, []) else none
  | [] => none

/-- Consume one expected literal character. -/
def expectChar (c : Char) : List Char → Option (List Char)
  | c' :: rest => if c' = c then some rest else none
  | [] => none

/-- A literal space in a strptime format string matches `\s+` (one or more
whitespace characters); here it is always followed by a digit directive, so
the greedy scan is exact. -/
def expectWs1 : List Char → Option (List Char)
  | c :: rest => if pythonIsSpace c then some (rest.dropWhile pythonIsSpace) else none
  | [] => none

/-- Python `datetime.strptime(s, "%d/%m/%y, %H:%M:%S")`, keeping only the
date (`%y`: 00-68 maps to 2000-2068, 69-99 to 1969-1999). `none` models the
`ValueError` on a non-matching string or an invalid calendar date. -/
def parseFormatSlash (cs : List Char) : Option Date := do
  let (d, cs) ← scanDay cs
  let cs ← expectChar '/' cs
  let (mo, cs) ← scanMonth cs
  let cs ← expectChar '/' cs
  let (yy, cs) ← scanTwoDigits cs
  let cs ← expectChar ',' cs
  let cs ← expectWs1 cs
  let (_, cs) ← scanHour cs
  let cs ← expectChar ':' cs
  let (_, cs) ← scanMinSec cs
  let cs ← expectChar ':' cs
  let (_, cs) ← scanMinSec cs
  if cs.isEmpty then
    let y := if yy ≤ 68 then 2000 + yy else 1900 + yy
    if d ≤ daysInMonth y mo then some ⟨y, mo, d⟩ else none
  else none

/-- Python `datetime.strptime(s, "%d-%m-%Y, %H:%M:%S")`, keeping only the
date. `none` models the `ValueError` on a non-matching string or an invalid
calendar date (including year 0000, below `datetime.MINYEAR`). -/
def parseFormatDash (cs : List Char) : Option Date := do
  let (d, cs) ← scanDay cs
  let cs ← expectChar '-' cs
  let (mo, cs) ← scanMonth cs
  let cs ← expectChar '-' cs
  let (y, cs) ← scanFourDigits cs
  let cs ← expectChar ',' cs
  let cs ← expectWs1 cs
  let (_, cs) ← scanHour cs
  let cs ← expectChar ':' cs
  let (_, cs) ← scanMinSec cs
  let cs ← expectChar ':' cs
  let (_, cs) ← scanMinSec cs
  if cs.isEmpty then
    if 1 ≤ y ∧ d ≤ daysInMonth y mo then some ⟨y, mo, d⟩ else none
  else none

/-- `WhatsAppChatParser.extract_date_from_timestamp`: try the slash format
when the string contains `/`, else the dash format; `None` on failure. The
source returns the date formatted as `"%Y-%m-%d"` and the caller immediately
reparses that string; the model keeps the date value itself (the round trip
is the identity for the four-digit years produced here). -/
def extract_date_from_timestamp (timestamp_str : String) : Option Date :=
  if timestamp_str.data.contains '/' then parseFormatSlash timestamp_str.data
  else parseFormatDash timestamp_str.data

example : extract_date_from_timestamp "27/04/25, 12:44:30" = some ⟨2025, 4, 27⟩ := by decide
example : extract_date_from_timestamp "27-04-2025, 12:44:30" = some ⟨2025, 4, 27⟩ := by decide
example : extract_date_from_timestamp "31/02/25, 12:44:30" = none := by decide
example : extract_date_from_timestamp "whatever" = none := by decide

/-- Consume a fixed literal character sequence. -/
def expectLit : List Char → List Char → Option (List Char)
  | [], cs => some cs
  | l :: ls, c :: cs => if c = l then expectLit ls cs else none
  | _ :: _, [] => none

/-- Consume exactly `n` digits (regex `\d{n}`); further digits may follow. -/
def digitsTake (n : Nat) (cs : List Char) : Option (List Char × List Char) :=
  let d := cs.takeWhile Char.isDigit
  if n ≤ d.length then some (d.take n, cs.drop n) else none

/-- One attempted match of the sender-is-a-phone pattern `^\+\d+\s\d+$`
(`re.match` in `extract_phone_number`). Greedy `\d+` needs no backtracking
here because the characters after each digit run are non-digits. -/
def labelIsPhone (cs : List Char) : Bool :=
  match cs with
  | '+' :: rest =>
    let d1 := rest.takeWhile Char.isDigit
    match rest.drop d1.length with
    | w :: rest2 =>
      !d1.isEmpty && pythonIsSpace w && !rest2.isEmpty && rest2.all Char.isDigit
    | [] => false
  | _ => false

/-- One attempt of `\+\d{1,3}\s?\d{10}` at a fixed position with `\d{1,3}`
bound to exactly `k` digits; `\s?` first tries to consume a whitespace
character and otherwise matches empty. Returns the matched substring. -/
def tryIntlK (k : Nat) (rest : List Char) : Option (List Char) := do
  let (dk, r1) ← digitsTake k rest
  match r1 with
  | w :: r2 =>
    if pythonIsSpace w then
      match digitsTake 10 r2 with
      | some (d10, _) => some ('+' :: dk ++ w :: d10)
      | none => none
    else
      match digitsTake 10 r1 with
      | some (d10, _) => some ('+' :: dk ++ d10)
      | none => none
  | [] => none

/-- One attempted match of `\+\d{1,3}\s?\d{10}` at a fixed position; the
greedy `\d{1,3}` tries three, then two, then one digit. -/
def tryIntl (cs : List Char) : Option (List Char) :=
  match cs with
  | '+' :: rest => tryIntlK 3 rest <|> tryIntlK 2 rest <|> tryIntlK 1 rest
  | _ => none

/-- One attempted match of `(\+\d{1,3}\s?\d{10}|\d{10})` at a fixed position
(ordered alternation). -/
def matchPhoneAt (cs : List Char) : Option (List Char) :=
  tryIntl cs <|> (digitsTake 10 cs).map Prod.fst

/-- `re.search(r'(\+\d{1,3}\s?\d{10}|\d{10})', message)`: leftmost match. -/
def searchPhone : List Char → Option String
  | [] => none
  | c :: rest =>
    match matchPhoneAt (c :: rest) with
    | some s => some ⟨s⟩
    | none => searchPhone rest

/-- `WhatsAppChatParser.extract_phone_number`: return the sender name
verbatim when it matches `^\+\d+\s\d+$`, else the first phone-shaped
substring of the message, else `None`. -/
def extract_phone_number (sender_name message : String) : Option String :=
  if labelIsPhone sender_name.data then some sender_name
  else searchPhone message.data

example : extract_phone_number "+91 9876543210" "hello" = some "+91 9876543210" := by decide
example : extract_phone_number "John Doe" "paid via 9876543210" = some "9876543210" := by decide
example : extract_phone_number "John Doe" "thanks" = none := by decide
example : extract_phone_number "John Doe" "call +91 9876543210 now" = some "+91 9876543210" := by
  decide

/-- Acceptability test for one split position `j` of the sender/message part
of the chat-entry regex `(.+?):\s(.+)$`: the sender is `cs.take j`, then a
colon, one whitespace character, and a nonempty message running to the end of
the line; `.` does not match a newline. -/
def okSplit (cs : List Char) (j : Nat) : Bool :=
  decide (1 ≤ j) && decide (j + 2 < cs.length) &&
    cs.getD j ' ' == ':' && pythonIsSpace (cs.getD (j + 1) 'x') &&
    (cs.take j).all (· ≠ '\n') && (cs.drop (j + 2)).all (· ≠ '\n')

/-- Non-greedy sender capture of `(.+?):\s(.+)$`: the smallest acceptable
split position wins. Returns (sender characters, message characters). -/
def splitSenderMsg (cs : List Char) : Option (List Char × List Char) :=
  ((List.range cs.length).find? (okSplit cs)).map fun j => (cs.take j, cs.drop (j + 2))

/-- `re.match` of the chat-entry pattern
`^[‎\s]*\[(\d{2}/\d{2}/\d{2},\s\d{2}:\d{2}:\d{2})\]\s(.+?):\s(.+)$`
against one (stripped) line, returning the captured
(timestamp, sender, message) groups. -/
def matchChatLine (line : List Char) : Option (String × String × String) :=
  match line.dropWhile (fun c => c = '‎' || pythonIsSpace c) with
  | '[' :: a1 :: a2 :: '/' :: b1 :: b2 :: '/' :: c1 :: c2 :: ',' :: w1 :: h1 :: h2 :: ':' ::
      m1 :: m2 :: ':' :: s1 :: s2 :: ']' :: w2 :: tail =>
    if [a1, a2, b1, b2, c1, c2, h1, h2, m1, m2, s1, s2].all Char.isDigit &&
        pythonIsSpace w1 && pythonIsSpace w2 then
      (splitSenderMsg tail).map fun p =>
        (⟨[a1, a2, '/', b1, b2, '/', c1, c2, ',', w1, h1, h2, ':', m1, m2, ':', s1, s2]⟩,
          ⟨p.1⟩, ⟨p.2⟩)
    else none
  | _ => none

example :
    matchChatLine "[27/04/25, 12:44:30] John Doe: hello there".data =
      some ("27/04/25, 12:44:30", "John Doe", "hello there") := by decide
example : matchChatLine "random line".data = none := by decide
example :
    matchChatLine "[27/04/25, 12:44:30] a:b: c".data =
      some ("27/04/25, 12:44:30", "a:b", "c") := by decide

/-- Consume `n` repetitions of `-\d{2}`, returning the consumed characters
and the remainder. -/
def dashTwoDigitGroups : Nat → List Char → Option (List Char × List Char)
  | 0, cs => some ([], cs)
  | n + 1, cs =>
    match expectChar '-' cs with
    | none => none
    | some cs1 =>
      match digitsTake 2 cs1 with
      | none => none
      | some (g, cs2) =>
        match dashTwoDigitGroups n cs2 with
        | none => none
        | some (gs, cs3) => some ('-' :: g ++ gs, cs3)

/-- One attempted match of the attachment pattern
`<attached:\s*(\d{8}-PHOTO-\d{4}-\d{2}-\d{2}-\d{2}-\d{2}-\d{2}\.jpg)>` at a
fixed position, returning the captured group (the filename). The greedy
`\s*` is exact because a digit must follow. -/
def matchAttachedAt (cs : List Char) : Option String :=
  match expectLit "<attached:".data cs with
  | none => none
  | some cs0 =>
    match digitsTake 8 (cs0.dropWhile pythonIsSpace) with
    | none => none
    | some (d8, cs1) =>
      match expectLit "-PHOTO-".data cs1 with
      | none => none
      | some cs2 =>
        match digitsTake 4 cs2 with
        | none => none
        | some (g0, cs3) =>
          match dashTwoDigitGroups 5 cs3 with
          | none => none
          | some (gs, cs4) =>
            match expectLit ".jpg".data cs4 with
            | none => none
            | some cs5 =>
              match expectChar '>' cs5 with
              | none => none
              | some _ =>
                some ⟨d8 ++ "-PHOTO-".data ++ g0 ++ gs ++ ".jpg".data⟩

/-- `re.search` of the attachment pattern in a message body: leftmost
match. -/
def searchImage : List Char → Option String
  | [] => none
  | c :: rest =>
    match matchAttachedAt (c :: rest) with
    | some s => some s
    | none => searchImage rest

example :
    searchImage "‎<attached: 00000001-PHOTO-2025-04-27-12-44-28.jpg>".data =
      some "00000001-PHOTO-2025-04-27-12-44-28.jpg" := by decide
example : searchImage "no attachment here".data = none := by decide

/-- One attempted match of `(\d{4})-(\d{2})-(\d{2})` at a fixed position,
returning the three captured digit runs as strings. Shared by the
correlator's date regex `(\d{4}-\d{2}-\d{2})` and the month filter's
`(\d{4})-(\d{2})-\d{2}` (same pattern, different groups). -/
def matchYMDAt (cs : List Char) : Option (String × String × String) := do
  let (y4, cs) ← digitsTake 4 cs
  let cs ← expectChar '-' cs
  let (m2, cs) ← digitsTake 2 cs
  let cs ← expectChar '-' cs
  let (d2, _) ← digitsTake 2 cs
  some (⟨y4⟩, ⟨m2⟩, ⟨d2⟩)

/-- `re.search` of the embedded-date pattern in a filename: leftmost
match. -/
def searchYMDparts : List Char → Option (String × String × String)
  | [] => none
  | c :: rest =>
    match matchYMDAt (c :: rest) with
    | some r => some r
    | none => searchYMDparts rest

example :
    searchYMDparts "00000001-PHOTO-2025-04-27-12-44-28.jpg".data =
      some ("2025", "04", "27") := by decide
example : searchYMDparts "receipt.jpg".data = none := by decide

/-- `datetime.strptime(y + "-" + m + "-" + d, "%Y-%m-%d")` applied to the
regex-captured 4-, 2- and 2-digit runs of an embedded filename date; `none`
models the `ValueError` raised on an invalid calendar date. On such
fixed-width digit inputs the lenient directive regexes reduce to the numeric
range checks below. -/
def strptimeYMD (ys ms ds : String) : Option Date :=
  let y := natOfDigits ys.data
  let m := natOfDigits ms.data
  let d := natOfDigits ds.data
  if 1 ≤ y ∧ 1 ≤ m ∧ m ≤ 12 ∧ 1 ≤ d ∧ d ≤ daysInMonth y m then some ⟨y, m, d⟩ else none

/-- `re.match(r'^(\d+)', filename)`: the leading digit run, if nonempty. -/
def leadingDigits (s : String) : Option String :=
  let ds := s.data.takeWhile Char.isDigit
  if ds.isEmpty then none else some ⟨ds⟩

example : leadingDigits "00000002-receipt.jpg" = some "00000002" := by decide
example : leadingDigits "receipt.jpg" = none := by decide

/-- One row of `self.contacts`: `{'name': ..., 'phone': ...}`. -/
structure Contact where
  name : String
  phone : Option String
deriving DecidableEq, Repr

/-- One element of the `image_entries` list built by `parse_chat_file`. -/
structure ImageEntry where
  timestamp : String
  contact_name : String
  contact_info : Contact
  sent_date : String
  image_filename : String
deriving DecidableEq, Repr

/-- The mutable state of one `WhatsAppChatParser` instance together with the
`image_entries` return value of `parse_chat_file`. -/
structure ParseResult where
  contacts : List (String × Contact)
  message_timestamps : List (String × String)
  image_entries : List ImageEntry
deriving DecidableEq, Repr

/-- The fresh state of `WhatsAppChatParser.__init__` (with no events). -/
def initParse : ParseResult := ⟨[], [], []⟩

/-- The body of `parse_chat_file`'s per-line loop: strip the line, skip it if
empty or not matching the chat pattern; otherwise register the sender in the
contact table if absent and, when the message carries an attachment marker,
record its timestamp and append one image entry. -/
def processLine (st : ParseResult) (rawLine : String) : ParseResult :=
  let line := pstrip rawLine
  if line.isEmpty then st
  else
    match matchChatLine line.data with
    | none => st
    | some (timestamp_str, contact_name, message) =>
      let c :=
        match dlookup contact_name st.contacts with
        | some c => c
        | none => ⟨contact_name, extract_phone_number contact_name message⟩
      let contacts :=
        match dlookup contact_name st.contacts with
        | some _ => st.contacts
        | none => dinsert contact_name c st.contacts
      match searchImage message.data with
      | none => { st with contacts := contacts }
      | some image_filename =>
        { contacts := contacts,
          message_timestamps := dinsert image_filename timestamp_str st.message_timestamps,
          image_entries := st.image_entries ++
            [⟨timestamp_str, contact_name, c, timestamp_str, image_filename⟩] }

/-- `WhatsAppChatParser.parse_chat_file` on a fresh parser instance. The
transcript is its list of lines plus an existence bit: a missing file returns
immediately with no events and an untouched (empty) state. -/
def parse_chat_file (fileExists : Bool) (lines : List String) : ParseResult :=
  if fileExists then lines.foldl processLine initParse else initParse

/-- One value of the contact mapping:
`{'name': ..., 'phone': ..., 'sent_date': ...}`. -/
structure MapVal where
  name : Option String
  phone : Option String
  sent_date : Option String
deriving DecidableEq, Repr

/-- The all-`None` value recorded for an unmatched image. -/
def nullVal : MapVal := ⟨none, none, none⟩

/-- The mapping value built from an image entry (used both for
`filename_mapping` and for the closest-timestamp tier). -/
def entryVal (e : ImageEntry) : MapVal :=
  ⟨some e.contact_name, e.contact_info.phone, some e.sent_date⟩

/-- The `filename_mapping` dict built at the top of `map_images_to_contacts`
from the entries whose `image_filename` is truthy (nonempty). -/
def build_filename_mapping (image_entries : List ImageEntry) : List (String × MapVal) :=
  image_entries.foldl
    (fun fm entry =>
      if entry.image_filename ≠ "" then dinsert entry.image_filename (entryVal entry) fm else fm)
    []

/-- The number-portion loop of the second matching tier: the first
`filename_mapping` item (in insertion order) whose leading digit run equals
the image's leading digit run once leading zeros are stripped from both. -/
def find2 (img_number : String) : List (String × MapVal) → Option MapVal
  | [] => none
  | (filename, contact_info) :: rest =>
    match leadingDigits filename with
    | some file_number =>
      if file_number.data.dropWhile (· = '0') = img_number.data.dropWhile (· = '0') then
        some contact_info
      else find2 img_number rest
    | none => find2 img_number rest

/-- One step of the closest-timestamp loop. The running state is the
`(closest_entry, min_time_diff)` pair (`none` while no candidate has been
seen, standing for `(None, inf)`). An entry whose timestamp has no parsable
date is skipped. When a candidate date exists, the source evaluates
`datetime.strptime(img_date, "%Y-%m-%d")`, which raises `ValueError` on an
invalid image date: the outer `none` models that exception. -/
def closestStep (pImg : Option Date) (st : Option (ImageEntry × Nat)) (e : ImageEntry) :
    Option (Option (ImageEntry × Nat)) :=
  match extract_date_from_timestamp e.timestamp with
  | none => some st
  | some d =>
    match pImg with
    | none => none
    | some di =>
      let time_diff := (rataDie di - rataDie d).natAbs
      match st with
      | none => some (some (e, time_diff))
      | some (_, min_time_diff) =>
        if time_diff < min_time_diff then some (some (e, time_diff)) else some st

/-- The closest-timestamp loop over all image entries. -/
def closestLoop (pImg : Option Date) :
    Option (ImageEntry × Nat) → List ImageEntry → Option (Option (ImageEntry × Nat))
  | st, [] => some st
  | st, e :: rest =>
    match closestStep pImg st e with
    | none => none
    | some st' => closestLoop pImg st' rest

/-- The second-tier block of the per-image body: the mapping after the
leading-digit-run attempt (`m1` in proof terms: unchanged when no leading
digits or no matching event filename, updated with the matching event's
data otherwise). -/
def tier2map (fm m : List (String × MapVal)) (img_filename : String) :
    List (String × MapVal) :=
  match leadingDigits img_filename with
  | some img_number =>
    match find2 img_number fm with
    | some contact_info => dinsert img_filename contact_info m
    | none => m
  | none => m

/-- The closest-timestamp block of the per-image body, entered with the
mapping `m1` left by the first two tiers: skipped when the filename is
already mapped; otherwise, when the filename embeds a `YYYY-MM-DD` date, the
closest event within one day is recorded, or an all-`None` entry. An image
with no embedded date records nothing. `none` models the uncaught
`ValueError` on an invalid embedded date. -/
def tier3map (image_entries : List ImageEntry) (m1 : List (String × MapVal))
    (img_filename : String) : Option (List (String × MapVal)) :=
  if (dlookup img_filename m1).isSome then some m1
  else
    match searchYMDparts img_filename.data with
    | none => some m1
    | some (ys, ms, ds) =>
      match closestLoop (strptimeYMD ys ms ds) none image_entries with
      | none => none
      | some (some (e, min_time_diff)) =>
        if min_time_diff ≤ 1 then some (dinsert img_filename (entryVal e) m1)
        else some (dinsert img_filename nullVal m1)
      | some none => some (dinsert img_filename nullVal m1)

/-- The per-image body of `map_images_to_contacts`: try the exact filename
match; otherwise run the leading-digit-run tier and then the
closest-timestamp tier on its result. -/
def processImage (fm : List (String × MapVal)) (image_entries : List ImageEntry)
    (m : List (String × MapVal)) (img_path : String) : Option (List (String × MapVal)) :=
  match dlookup (basename img_path) fm with
  | some info => some (dinsert (basename img_path) info m)
  | none => tier3map image_entries (tier2map fm m (basename img_path)) (basename img_path)

/-- The per-image loop of `map_images_to_contacts`, accumulating
`self.image_contact_mapping`. -/
def mapLoop (fm : List (String × MapVal)) (image_entries : List ImageEntry) :
    List (String × MapVal) → List String → Option (List (String × MapVal))
  | m, [] => some m
  | m, p :: ps =>
    match processImage fm image_entries m p with
    | none => none
    | some m' => mapLoop fm image_entries m' ps

/-- `WhatsAppChatParser.map_images_to_contacts` on a fresh parser instance
(`self.image_contact_mapping` starts empty). -/
def map_images_to_contacts (image_files : List String) (image_entries : List ImageEntry) :
    Option (List (String × MapVal)) :=
  mapLoop (build_filename_mapping image_entries) image_entries [] image_files

/-- An on-disk image file for the month filter: its path and the
year/month of its filesystem modification time (the only parts of
`os.path.getmtime` that `filter_images_by_month` consults). -/
structure ImgFile where
  path : String
  mtimeYear : Nat
  mtimeMonth : Nat
deriving DecidableEq, Repr

/-- The per-file loop of `filter_images_by_month`: a file whose basename
embeds a date is kept iff the captured year and month strings equal the
target strings; otherwise its modification year/month are compared
numerically to `int(target)` (whose `ValueError` on a non-numeric target is
modelled by `none`). -/
def filterLoop (target_year target_month : String) : List ImgFile → Option (List ImgFile)
  | [] => some []
  | f :: fs =>
    match searchYMDparts (basename f.path).data with
    | some (file_year, file_month, _) =>
      (filterLoop target_year target_month fs).map fun rest =>
        if file_year = target_year ∧ file_month = target_month then f :: rest else rest
    | none =>
      match pyInt target_year, pyInt target_month with
      | some y, some m =>
        (filterLoop target_year target_month fs).map fun rest =>
          if f.mtimeYear = y ∧ f.mtimeMonth = m then f :: rest else rest
      | _, _ => none

/-- `MaintenancePaymentProcessor.filter_images_by_month`. `none` models the
`ValueError` raised when the month string does not split into exactly two
`-`-separated parts, or when a dateless file forces `int()` onto a
non-numeric target part. -/
def filter_images_by_month (image_files : List ImgFile) (month : String) :
    Option (List ImgFile) :=
  match splitOnChar '-' month with
  | [target_year, target_month] => filterLoop target_year target_month image_files
  | _ => none

/-- The absolute day-distance between a parsed image date and the date of an
event's timestamp, when the latter parses
(`abs((strptime(img_date) - strptime(entry_date)).days)`). -/
def dayDist (di : Date) (e : ImageEntry) : Option Nat :=
  (extract_date_from_timestamp e.timestamp).map fun d => (rataDie di - rataDie d).natAbs

/-- The mapping value recorded by the closest-timestamp tier from the final
`(closest_entry, min_time_diff)` state: the closest entry's data when the
minimum distance is at most one day, the all-`None` value otherwise. -/
def tier3val : Option (ImageEntry × Nat) → MapVal
  | some (e, min_time_diff) => if min_time_diff ≤ 1 then entryVal e else nullVal
  | none => nullVal

/-- Exception-free form of `closestStep` for a successfully parsed image
date. -/
def stepPure (di : Date) (st : Option (ImageEntry × Nat)) (e : ImageEntry) :
    Option (ImageEntry × Nat) :=
  match dayDist di e with
  | none => st
  | some time_diff =>
    match st with
    | none => some (e, time_diff)
    | some (_, min_time_diff) =>
      if time_diff < min_time_diff then some (e, time_diff) else st

/-- Exception-free form of `closestLoop` for a successfully parsed image
date. -/
def loopPure (di : Date) : Option (ImageEntry × Nat) → List ImageEntry → Option (ImageEntry × Nat)
  | st, [] => st
  | st, e :: rest => loopPure di (stepPure di st e) rest

/-- The message body of the first transcript line whose sender is `name`
(the line that creates `name`'s contact-table row). -/
def firstMsgOf (name : String) (lines : List String) : Option String :=
  lines.findSome? fun l =>
    match matchChatLine (pstrip l).data with
    | some (_, n, msg) => if n = name then some msg else none
    | none => none

/-- The attachment of one transcript line, as (filename, timestamp), when
the line matches the chat pattern and its message carries an attachment
marker. -/
def attachmentOf (l : String) : Option (String × String) :=
  match matchChatLine (pstrip l).data with
  | some (timestamp_str, _, message) =>
    (searchImage message.data).map fun image_filename => (image_filename, timestamp_str)
  | none => none

/-- Modelled from the claim's words: the sender label has the shape
plus sign, digits, one space, digits. -/
def specLabelShape (label : String) : Prop :=
  ∃ d1 d2 : List Char, label.data = '+' :: (d1 ++ ' ' :: d2) ∧ d1 ≠ [] ∧ d2 ≠ [] ∧
    d1.all Char.isDigit ∧ d2.all Char.isDigit

/-- The sender-label shape actually accepted by the source's
`^\+\d+\s\d+$`: plus sign, digits, one whitespace character, digits. -/
def specLabelShapeWs (label : String) : Prop :=
  ∃ (d1 : List Char) (w : Char) (d2 : List Char),
    label.data = '+' :: (d1 ++ w :: d2) ∧ d1 ≠ [] ∧ d2 ≠ [] ∧
      d1.all Char.isDigit ∧ d2.all Char.isDigit ∧ pythonIsSpace w

theorem dlookup_dinsert_self (k : String) (v : α) (l : List (String × α)) :
    dlookup k (dinsert k v l) = some v := by
  induction l with
  | nil => simp [dinsert, dlookup]
  | cons q rest ih =>
    by_cases h : q.1 = k
    · simp [dinsert, dlookup, h]
    · simp [dinsert, dlookup, h, ih]

theorem dlookup_dinsert_ne {k' k : String} (h : k' ≠ k) (v : α) (l : List (String × α)) :
    dlookup k' (dinsert k v l) = dlookup k' l := by
  induction l with
  | nil =>
    have : ¬ k = k' := fun hh => h hh.symm
    simp [dinsert, dlookup, this]
  | cons q rest ih =>
    by_cases hq : q.1 = k
    · subst hq
      have : ¬ q.1 = k' := fun hh => h hh.symm
      simp [dinsert, dlookup, this]
    · simp only [dinsert, if_neg hq]
      by_cases hq' : q.1 = k'
      · simp [dlookup, hq']
      · simp [dlookup, hq', ih]

theorem dlookup_dinsert_none {k' k : String} {v : α} {l : List (String × α)}
    (h : dlookup k' (dinsert k v l) = none) : dlookup k' l = none := by
  by_cases hk : k' = k
  · subst hk
    rw [dlookup_dinsert_self] at h
    exact absurd h (by simp)
  · rwa [dlookup_dinsert_ne hk] at h

theorem dlookup_dinsert_cases {k' k : String} {v w : α} {l : List (String × α)}
    (h : dlookup k' (dinsert k v l) = some w) : w = v ∨ dlookup k' l = some w := by
  by_cases hk : k' = k
  · subst hk
    rw [dlookup_dinsert_self] at h
    exact Or.inl (Option.some_injective _ h).symm
  · exact Or.inr (by rwa [dlookup_dinsert_ne hk] at h)

theorem dkeys_dinsert (k : String) (v : α) (l : List (String × α)) :
    dkeys (dinsert k v l) = if k ∈ dkeys l then dkeys l else dkeys l ++ [k] := by
  induction l with
  | nil => simp [dinsert, dkeys]
  | cons q rest ih =>
    by_cases h : q.1 = k
    · simp [dinsert, dkeys, h]
    · have h' : ¬ k = q.1 := fun hh => h hh.symm
      simp only [dinsert, if_neg h, dkeys, List.map_cons, List.mem_cons, h']
      rw [show dkeys (dinsert k v rest) = List.map Prod.fst (dinsert k v rest) from rfl] at ih
      by_cases hm : k ∈ dkeys rest
      · simp [dkeys] at hm ih ⊢
        simp [hm] at ih
        simp [hm, ih]
      · simp [dkeys] at hm ih ⊢
        simp [hm] at ih
        simp [hm, ih]

theorem nodup_dkeys_dinsert {l : List (String × α)} (h : (dkeys l).Nodup) (k : String) (v : α) :
    (dkeys (dinsert k v l)).Nodup := by
  rw [dkeys_dinsert]
  by_cases hm : k ∈ dkeys l
  · simpa [hm]
  · simp only [hm, if_false]
    exact List.Nodup.append h (List.nodup_singleton k) (by simpa using hm)

theorem dlookup_foldl_dinsert (ps : List (String × α)) (k : String) (m0 : List (String × α)) :
    dlookup k (ps.foldl (fun m q => dinsert q.1 q.2 m) m0) =
      match ps.reverse.find? (fun q => q.1 == k) with
      | some q => some q.2
      | none => dlookup k m0 := by
  induction ps generalizing m0 with
  | nil => simp
  | cons q ps ih =>
    simp only [List.foldl_cons, List.reverse_cons, ih, List.find?_append]
    rcases hf : ps.reverse.find? (fun q => q.1 == k) with _ | r
    · simp only [hf, Option.none_or]
      by_cases hq : q.1 = k
      · subst hq
        simp [dlookup_dinsert_self]
      · have hne : k ≠ q.1 := fun hh => hq hh.symm
        have hb : (q.1 == k) = false := by simpa using hq
        simp [List.find?, hb, dlookup_dinsert_ne hne]
    · simp [hf]

/-- The contact row used for the current line's sender: the registered one
when present, otherwise a fresh row carrying the extracted phone. -/
def contactAt (st : ParseResult) (n msg : String) : Contact :=
  match dlookup n st.contacts with
  | some c => c
  | none => ⟨n, extract_phone_number n msg⟩

theorem matchChatLine_nil : matchChatLine [] = none := rfl

theorem processLine_contacts (st : ParseResult) (l : String) :
    (processLine st l).contacts =
      match matchChatLine (pstrip l).data with
      | none => st.contacts
      | some (_, n, msg) =>
        match dlookup n st.contacts with
        | some _ => st.contacts
        | none => dinsert n ⟨n, extract_phone_number n msg⟩ st.contacts := by
  unfold processLine
  by_cases he : (pstrip l).isEmpty
  · have hs : pstrip l = "" := (String.isEmpty_iff _).mp he
    simp [he, hs, matchChatLine_nil]
  · simp only [he, if_false, Bool.false_eq_true]
    rcases hm : matchChatLine (pstrip l).data with _ | ⟨ts, n, msg⟩
    · simp
    · rcases hc : dlookup n st.contacts with _ | c <;>
        rcases hi : searchImage msg.data with _ | fn <;>
          simp [hc, hi, contactAt]

theorem processLine_mts (st : ParseResult) (l : String) :
    (processLine st l).message_timestamps =
      match attachmentOf l with
      | some q => dinsert q.1 q.2 st.message_timestamps
      | none => st.message_timestamps := by
  unfold processLine attachmentOf
  by_cases he : (pstrip l).isEmpty
  · have hs : pstrip l = "" := (String.isEmpty_iff _).mp he
    simp [he, hs, matchChatLine_nil]
  · simp only [he, if_false, Bool.false_eq_true]
    rcases hm : matchChatLine (pstrip l).data with _ | ⟨ts, n, msg⟩
    · simp
    · rcases hc : dlookup n st.contacts with _ | c <;>
        rcases hi : searchImage msg.data with _ | fn <;>
          simp [hc, hi]

theorem processLine_events (st : ParseResult) (l : String) :
    (processLine st l).image_entries =
      st.image_entries ++
        match matchChatLine (pstrip l).data with
        | some (ts, n, msg) =>
          match searchImage msg.data with
          | some fn => [⟨ts, n, contactAt st n msg, ts, fn⟩]
          | none => []
        | none => [] := by
  unfold processLine
  by_cases he : (pstrip l).isEmpty
  · have hs : pstrip l = "" := (String.isEmpty_iff _).mp he
    simp [he, hs, matchChatLine_nil]
  · simp only [he, if_false, Bool.false_eq_true]
    rcases hm : matchChatLine (pstrip l).data with _ | ⟨ts, n, msg⟩
    · simp
    · rcases hc : dlookup n st.contacts with _ | c <;>
        rcases hi : searchImage msg.data with _ | fn <;>
          simp [hc, hi, contactAt]

theorem processLine_contacts_of_none {st : ParseResult} {l : String}
    (hm : matchChatLine (pstrip l).data = none) : (processLine st l).contacts = st.contacts := by
  have h := processLine_contacts st l
  rw [hm] at h
  exact h

theorem processLine_contacts_of_old {st : ParseResult} {l ts n msg : String} {c : Contact}
    (hm : matchChatLine (pstrip l).data = some (ts, n, msg))
    (hc : dlookup n st.contacts = some c) : (processLine st l).contacts = st.contacts := by
  have h := processLine_contacts st l
  rw [hm] at h
  simp only at h
  rw [hc] at h
  exact h

theorem processLine_contacts_of_new {st : ParseResult} {l ts n msg : String}
    (hm : matchChatLine (pstrip l).data = some (ts, n, msg))
    (hc : dlookup n st.contacts = none) :
    (processLine st l).contacts = dinsert n ⟨n, extract_phone_number n msg⟩ st.contacts := by
  have h := processLine_contacts st l
  rw [hm] at h
  simp only at h
  rw [hc] at h
  exact h

theorem foldl_processLine_contacts (lines : List String) :
    ∀ (st : ParseResult) (name : String),
      dlookup name (lines.foldl processLine st).contacts =
        match dlookup name st.contacts with
        | some c => some c
        | none =>
          (firstMsgOf name lines).map fun msg => (⟨name, extract_phone_number name msg⟩ : Contact)
    := by
  induction lines with
  | nil =>
    intro st name
    rcases h : dlookup name st.contacts with _ | c <;> simp [firstMsgOf, h]
  | cons l ls ih =>
    intro st name
    rw [List.foldl_cons, ih]
    unfold firstMsgOf
    rw [List.findSome?_cons]
    rcases hm : matchChatLine (pstrip l).data with _ | ⟨ts, n, msg⟩
    · rw [processLine_contacts_of_none hm]
    · by_cases hn : n = name
      · subst hn
        rcases hc : dlookup n st.contacts with _ | c
        · rw [processLine_contacts_of_new hm hc]
          rw [dlookup_dinsert_self]
          simp [hc]
        · rw [processLine_contacts_of_old hm hc]
          simp [hc]
      · have hn' : ¬ name = n := fun hh => hn hh.symm
        rcases hc : dlookup n st.contacts with _ | c
        · rw [processLine_contacts_of_new hm hc, dlookup_dinsert_ne hn']
          simp [hn]
        · rw [processLine_contacts_of_old hm hc]
          simp [hn]

theorem processLine_mts_of_none {st : ParseResult} {l : String}
    (ha : attachmentOf l = none) :
    (processLine st l).message_timestamps = st.message_timestamps := by
  have h := processLine_mts st l
  rw [ha] at h
  exact h

theorem processLine_mts_of_some {st : ParseResult} {l : String} {q : String × String}
    (ha : attachmentOf l = some q) :
    (processLine st l).message_timestamps = dinsert q.1 q.2 st.message_timestamps := by
  have h := processLine_mts st l
  rw [ha] at h
  exact h

theorem foldl_processLine_mts (lines : List String) :
    ∀ st : ParseResult,
      (lines.foldl processLine st).message_timestamps =
        (lines.filterMap attachmentOf).foldl (fun m q => dinsert q.1 q.2 m)
          st.message_timestamps := by
  induction lines with
  | nil => intro st; simp
  | cons l ls ih =>
    intro st
    rw [List.foldl_cons, ih, List.filterMap_cons]
    rcases ha : attachmentOf l with _ | q
    · rw [processLine_mts_of_none ha]
    · rw [processLine_mts_of_some ha, List.foldl_cons]

theorem processLine_events_filenames (st : ParseResult) (l : String) :
    (processLine st l).image_entries.map (fun e => e.image_filename) =
      st.image_entries.map (fun e => e.image_filename) ++
        (match attachmentOf l with | some q => [q.1] | none => []) := by
  rw [processLine_events]
  unfold attachmentOf
  rcases hm : matchChatLine (pstrip l).data with _ | ⟨ts, n, msg⟩
  · simp
  · rcases hi : searchImage msg.data with _ | fn <;> simp [hi]

theorem foldl_processLine_events (lines : List String) :
    ∀ st : ParseResult,
      ((lines.foldl processLine st).image_entries).map (fun e => e.image_filename) =
        st.image_entries.map (fun e => e.image_filename) ++
          (lines.filterMap attachmentOf).map Prod.fst := by
  induction lines with
  | nil => intro st; simp
  | cons l ls ih =>
    intro st
    rw [List.foldl_cons, ih, processLine_events_filenames, List.filterMap_cons]
    rcases ha : attachmentOf l with _ | q <;> simp

theorem foldl_processLine_contacts_nodup (lines : List String) :
    ∀ st : ParseResult, (dkeys st.contacts).Nodup →
      (dkeys (lines.foldl processLine st).contacts).Nodup := by
  induction lines with
  | nil => intro st h; simpa
  | cons l ls ih =>
    intro st h
    rw [List.foldl_cons]
    apply ih
    rcases hm : matchChatLine (pstrip l).data with _ | ⟨ts, n, msg⟩
    · rwa [processLine_contacts_of_none hm]
    · rcases hc : dlookup n st.contacts with _ | c
      · rw [processLine_contacts_of_new hm hc]
        exact nodup_dkeys_dinsert h n _
      · rwa [processLine_contacts_of_old hm hc]

theorem parse_chat_file_false (lines : List String) :
    parse_chat_file false lines = initParse := rfl

theorem parse_chat_file_true (lines : List String) :
    parse_chat_file true lines = lines.foldl processLine initParse := rfl

theorem dinsert_dinsert_self (k : String) (v w : α) (l : List (String × α)) :
    dinsert k v (dinsert k w l) = dinsert k v l := by
  induction l with
  | nil => simp [dinsert]
  | cons q rest ih =>
    by_cases h : q.1 = k
    · simp [dinsert, h]
    · simp [dinsert, h, ih]

theorem processImage_exact {fm : List (String × MapVal)} {ent : List ImageEntry}
    {m : List (String × MapVal)} {p : String} {ci : MapVal}
    (h : dlookup (basename p) fm = some ci) :
    processImage fm ent m p = some (dinsert (basename p) ci m) := by
  unfold processImage
  rw [h]

theorem processImage_numeric {fm : List (String × MapVal)} {ent : List ImageEntry}
    {m : List (String × MapVal)} {p n : String} {ci : MapVal}
    (h1 : dlookup (basename p) fm = none)
    (h2 : leadingDigits (basename p) = some n)
    (h3 : find2 n fm = some ci) :
    processImage fm ent m p = some (dinsert (basename p) ci m) := by
  unfold processImage
  simp only [h1]
  unfold tier2map
  simp only [h2, h3]
  unfold tier3map
  rw [dlookup_dinsert_self]
  simp

theorem tier2map_shape (fm m : List (String × MapVal)) (b : String) :
    tier2map fm m b = m ∨ ∃ v, tier2map fm m b = dinsert b v m := by
  unfold tier2map
  rcases hl : leadingDigits b with _ | n
  · exact Or.inl rfl
  · simp only [hl]
    rcases hf : find2 n fm with _ | ci
    · exact Or.inl rfl
    · exact Or.inr ⟨ci, rfl⟩

theorem tier3map_shape {ent : List ImageEntry} {m1 m' : List (String × MapVal)} {b : String}
    (h : tier3map ent m1 b = some m') : m' = m1 ∨ ∃ v, m' = dinsert b v m1 := by
  unfold tier3map at h
  by_cases hg : (dlookup b m1).isSome
  · rw [if_pos hg] at h
    exact Or.inl (Option.some_injective _ h).symm
  · rw [if_neg hg] at h
    rcases h4 : searchYMDparts b.data with _ | ⟨ys, ms, ds⟩
    · rw [h4] at h
      exact Or.inl (Option.some_injective _ h).symm
    · simp only [h4] at h
      rcases h5 : closestLoop (strptimeYMD ys ms ds) none ent with _ | st
      · simp only [h5] at h
        exact Option.noConfusion h
      · simp only [h5] at h
        rcases st with _ | ⟨e, diff⟩
        · exact Or.inr ⟨_, (Option.some_injective _ h).symm⟩
        · simp only at h
          by_cases hd : diff ≤ 1
          · rw [if_pos hd] at h
            exact Or.inr ⟨_, (Option.some_injective _ h).symm⟩
          · rw [if_neg hd] at h
            exact Or.inr ⟨_, (Option.some_injective _ h).symm⟩

theorem processImage_shape {fm : List (String × MapVal)} {ent : List ImageEntry}
    {m m' : List (String × MapVal)} {p : String}
    (h : processImage fm ent m p = some m') :
    m' = m ∨ ∃ v, m' = dinsert (basename p) v m := by
  unfold processImage at h
  rcases h1 : dlookup (basename p) fm with _ | ci
  · rw [h1] at h
    rcases tier2map_shape fm m (basename p) with h2 | ⟨v, h2⟩
    · rw [h2] at h
      exact tier3map_shape h
    · rw [h2] at h
      rcases tier3map_shape h with h3 | ⟨w, h3⟩
      · exact Or.inr ⟨v, h3⟩
      · rw [dinsert_dinsert_self] at h3
        exact Or.inr ⟨w, h3⟩
  · rw [h1] at h
    exact Or.inr ⟨_, (Option.some_injective _ h).symm⟩

theorem processImage_frame {fm : List (String × MapVal)} {ent : List ImageEntry}
    {m m' : List (String × MapVal)} {p : String}
    (h : processImage fm ent m p = some m') {b : String} (hb : b ≠ basename p) :
    dlookup b m' = dlookup b m := by
  rcases processImage_shape h with h1 | ⟨v, h1⟩
  · rw [h1]
  · rw [h1, dlookup_dinsert_ne hb]

theorem processImage_none_back {fm : List (String × MapVal)} {ent : List ImageEntry}
    {m m' : List (String × MapVal)} {p : String}
    (h : processImage fm ent m p = some m') {k : String} (hk : dlookup k m' = none) :
    dlookup k m = none := by
  rcases processImage_shape h with h1 | ⟨v, h1⟩
  · rwa [h1] at hk
  · rw [h1] at hk
    exact dlookup_dinsert_none hk

theorem processImage_nodup {fm : List (String × MapVal)} {ent : List ImageEntry}
    {m m' : List (String × MapVal)} {p : String}
    (h : processImage fm ent m p = some m') (hm : (dkeys m).Nodup) : (dkeys m').Nodup := by
  rcases processImage_shape h with h1 | ⟨v, h1⟩
  · rwa [h1]
  · rw [h1]
    exact nodup_dkeys_dinsert hm _ _

theorem tier3map_absent {ent : List ImageEntry} {m1 m' : List (String × MapVal)} {b : String}
    (h : tier3map ent m1 b = some m') (hn : dlookup b m' = none) :
    searchYMDparts b.data = none ∧ dlookup b m1 = none := by
  unfold tier3map at h
  by_cases hg : (dlookup b m1).isSome
  · rw [if_pos hg] at h
    have hm : m' = m1 := (Option.some_injective _ h).symm
    rw [hm] at hn
    rw [hn] at hg
    exact absurd hg (by simp)
  · have hnone : dlookup b m1 = none := Option.not_isSome_iff_eq_none.mp hg
    rw [if_neg hg] at h
    rcases h4 : searchYMDparts b.data with _ | ⟨ys, ms, ds⟩
    · exact ⟨rfl, hnone⟩
    · exfalso
      simp only [h4] at h
      rcases h5 : closestLoop (strptimeYMD ys ms ds) none ent with _ | st
      · simp only [h5] at h
        exact Option.noConfusion h
      · simp only [h5] at h
        rcases st with _ | ⟨e, diff⟩
        · have hm : m' = dinsert b nullVal m1 := (Option.some_injective _ h).symm
          rw [hm, dlookup_dinsert_self] at hn
          exact Option.noConfusion hn
        · simp only at h
          by_cases hd : diff ≤ 1
          · rw [if_pos hd] at h
            have hm : m' = dinsert b (entryVal e) m1 := (Option.some_injective _ h).symm
            rw [hm, dlookup_dinsert_self] at hn
            exact Option.noConfusion hn
          · rw [if_neg hd] at h
            have hm : m' = dinsert b nullVal m1 := (Option.some_injective _ h).symm
            rw [hm, dlookup_dinsert_self] at hn
            exact Option.noConfusion hn

theorem processImage_absent {fm : List (String × MapVal)} {ent : List ImageEntry}
    {m m' : List (String × MapVal)} {p : String}
    (h : processImage fm ent m p = some m') (hn : dlookup (basename p) m' = none) :
    dlookup (basename p) fm = none ∧
      (∀ n, leadingDigits (basename p) = some n → find2 n fm = none) ∧
      searchYMDparts (basename p).data = none := by
  unfold processImage at h
  rcases h1 : dlookup (basename p) fm with _ | ci
  · rw [h1] at h
    obtain ⟨hy, hm1⟩ := tier3map_absent h hn
    refine ⟨rfl, ?_, hy⟩
    intro n hne
    rcases hf : find2 n fm with _ | ci
    · rfl
    · exfalso
      unfold tier2map at hm1
      rw [hne] at hm1
      simp only [hf] at hm1
      rw [dlookup_dinsert_self] at hm1
      exact Option.noConfusion hm1
  · simp only [h1] at h
    have hm : m' = dinsert (basename p) ci m := (Option.some_injective _ h).symm
    rw [hm, dlookup_dinsert_self] at hn
    exact Option.noConfusion hn

theorem mapLoop_nodup {fm : List (String × MapVal)} {ent : List ImageEntry} :
    ∀ (ps : List String) (m mf : List (String × MapVal)),
      mapLoop fm ent m ps = some mf → (dkeys m).Nodup → (dkeys mf).Nodup := by
  intro ps
  induction ps with
  | nil =>
    intro m mf h hm
    unfold mapLoop at h
    have : m = mf := Option.some_injective _ h
    rwa [← this]
  | cons q qs ih =>
    intro m mf h hm
    unfold mapLoop at h
    rcases hq : processImage fm ent m q with _ | m'
    · rw [hq] at h
      exact Option.noConfusion h
    · rw [hq] at h
      exact ih m' mf h (processImage_nodup hq hm)

theorem mapLoop_none_back {fm : List (String × MapVal)} {ent : List ImageEntry} :
    ∀ (ps : List String) (m mf : List (String × MapVal)),
      mapLoop fm ent m ps = some mf → ∀ k, dlookup k mf = none → dlookup k m = none := by
  intro ps
  induction ps with
  | nil =>
    intro m mf h k hk
    unfold mapLoop at h
    have : m = mf := Option.some_injective _ h
    rwa [this]
  | cons q qs ih =>
    intro m mf h k hk
    unfold mapLoop at h
    rcases hq : processImage fm ent m q with _ | m'
    · rw [hq] at h
      exact Option.noConfusion h
    · rw [hq] at h
      exact processImage_none_back hq (ih m' mf h k hk)

theorem mapLoop_keep {fm : List (String × MapVal)} {ent : List ImageEntry} :
    ∀ (ps : List String) (m mf : List (String × MapVal)) (b : String) (ci : MapVal),
      mapLoop fm ent m ps = some mf → dlookup b fm = some ci → dlookup b m = some ci →
        dlookup b mf = some ci := by
  intro ps
  induction ps with
  | nil =>
    intro m mf b ci h hfm hb
    unfold mapLoop at h
    have : m = mf := Option.some_injective _ h
    rwa [← this]
  | cons q qs ih =>
    intro m mf b ci h hfm hb
    unfold mapLoop at h
    rcases hq : processImage fm ent m q with _ | m'
    · rw [hq] at h
      exact Option.noConfusion h
    · rw [hq] at h
      refine ih m' mf b ci h hfm ?_
      by_cases hqb : b = basename q
      · subst hqb
        rw [processImage_exact hfm] at hq
        have hins : dinsert (basename q) ci m = m' := Option.some_injective _ hq
        rw [← hins, dlookup_dinsert_self]
      · rw [processImage_frame hq hqb]
        exact hb

theorem mapLoop_exact {fm : List (String × MapVal)} {ent : List ImageEntry} :
    ∀ (ps : List String) (m mf : List (String × MapVal)) (p : String) (ci : MapVal),
      mapLoop fm ent m ps = some mf → p ∈ ps → dlookup (basename p) fm = some ci →
        dlookup (basename p) mf = some ci := by
  intro ps
  induction ps with
  | nil =>
    intro m mf p ci h hp
    exact absurd hp (List.not_mem_nil p)
  | cons q qs ih =>
    intro m mf p ci h hp hfm
    unfold mapLoop at h
    rcases hq : processImage fm ent m q with _ | m'
    · rw [hq] at h
      exact Option.noConfusion h
    · rw [hq] at h
      rcases List.mem_cons.mp hp with hpq | hpq

      · subst hpq
        rw [processImage_exact hfm] at hq
        have hm' : dinsert (basename p) ci m = m' := Option.some_injective _ hq
        exact mapLoop_keep qs m' mf (basename p) ci h hfm (by rw [← hm', dlookup_dinsert_self])
      · exact ih m' mf p ci h hpq hfm

theorem mapLoop_absent {fm : List (String × MapVal)} {ent : List ImageEntry} :
    ∀ (ps : List String) (m mf : List (String × MapVal)) (p : String),
      mapLoop fm ent m ps = some mf → p ∈ ps → dlookup (basename p) mf = none →
        dlookup (basename p) fm = none ∧
          (∀ n, leadingDigits (basename p) = some n → find2 n fm = none) ∧
          searchYMDparts (basename p).data = none := by
  intro ps
  induction ps with
  | nil =>
    intro m mf p h hp
    exact absurd hp (List.not_mem_nil p)
  | cons q qs ih =>
    intro m mf p h hp hn
    unfold mapLoop at h
    rcases hq : processImage fm ent m q with _ | m'
    · rw [hq] at h
      exact Option.noConfusion h
    · rw [hq] at h
      rcases List.mem_cons.mp hp with hpq | hpq
      · subst hpq
        exact processImage_absent hq (mapLoop_none_back qs m' mf h (basename p) hn)
      · exact ih m' mf p h hpq hn

theorem closestStep_skip {pImg : Option Date} {st : Option (ImageEntry × Nat)} {e : ImageEntry}
    (hd : extract_date_from_timestamp e.timestamp = none) : closestStep pImg st e = some st := by
  unfold closestStep
  rw [hd]

theorem closestLoop_skipAll {pImg : Option Date} :
    ∀ (l : List ImageEntry) (st : Option (ImageEntry × Nat)),
      (∀ e ∈ l, extract_date_from_timestamp e.timestamp = none) →
        closestLoop pImg st l = some st := by
  intro l
  induction l with
  | nil => intro st _; rfl
  | cons e l ih =>
    intro st h
    unfold closestLoop
    rw [closestStep_skip (h e (List.mem_cons_self e l))]
    exact ih st fun e' he' => h e' (List.mem_cons_of_mem e he')

theorem closestStep_pure (di : Date) (st : Option (ImageEntry × Nat)) (e : ImageEntry) :
    closestStep (some di) st e = some (stepPure di st e) := by
  unfold closestStep stepPure dayDist
  rcases hd : extract_date_from_timestamp e.timestamp with _ | d
  · rfl
  · rcases st with _ | ⟨p, best⟩
    · simp
    · simp only [Option.map_some]
      by_cases hlt : (rataDie di - rataDie d).natAbs < best <;> simp [hlt]

theorem closestLoop_pure (di : Date) :
    ∀ (l : List ImageEntry) (st : Option (ImageEntry × Nat)),
      closestLoop (some di) st l = some (loopPure di st l) := by
  intro l
  induction l with
  | nil => intro st; rfl
  | cons e l ih =>
    intro st
    unfold closestLoop loopPure
    rw [closestStep_pure]
    exact ih (stepPure di st e)

theorem stepPure_of_dist_none {di : Date} {st : Option (ImageEntry × Nat)} {e : ImageEntry}
    (hd : dayDist di e = none) : stepPure di st e = st := by
  unfold stepPure
  rw [hd]

theorem stepPure_none_of_dist {di : Date} {e : ImageEntry} {d : Nat}
    (hd : dayDist di e = some d) : stepPure di none e = some (e, d) := by
  unfold stepPure
  rw [hd]

theorem stepPure_some_lt {di : Date} {e p : ImageEntry} {d best : Nat}
    (hd : dayDist di e = some d) (hlt : d < best) :
    stepPure di (some (p, best)) e = some (e, d) := by
  unfold stepPure
  rw [hd]
  simp [hlt]

theorem stepPure_some_ge {di : Date} {e p : ImageEntry} {d best : Nat}
    (hd : dayDist di e = some d) (hge : ¬ d < best) :
    stepPure di (some (p, best)) e = some (p, best) := by
  unfold stepPure
  rw [hd]
  simp [hge]

theorem stepPure_eq_none {di : Date} {st : Option (ImageEntry × Nat)} {e : ImageEntry}
    (h : stepPure di st e = none) : st = none ∧ dayDist di e = none := by
  rcases hd : dayDist di e with _ | d
  · rw [stepPure_of_dist_none hd] at h
    exact ⟨h, rfl⟩
  · rcases st with _ | ⟨p, best⟩
    · rw [stepPure_none_of_dist hd] at h
      exact Option.noConfusion h
    · by_cases hlt : d < best
      · rw [stepPure_some_lt hd hlt] at h
        exact Option.noConfusion h
      · rw [stepPure_some_ge hd hlt] at h
        exact Option.noConfusion h

theorem loopPure_none (di : Date) :
    ∀ (l : List ImageEntry) (st : Option (ImageEntry × Nat)),
      loopPure di st l = none → st = none ∧ ∀ e ∈ l, dayDist di e = none := by
  intro l
  induction l with
  | nil =>
    intro st h
    exact ⟨h, by simp⟩
  | cons e l ih =>
    intro st h
    unfold loopPure at h
    obtain ⟨hst, hrest⟩ := ih (stepPure di st e) h
    obtain ⟨hst0, hd⟩ := stepPure_eq_none hst
    refine ⟨hst0, ?_⟩
    intro e' he'
    rcases List.mem_cons.mp he' with he' | he'
    · subst he'
      exact hd
    · exact hrest e' he'

theorem loopPure_min (di : Date) :
    ∀ (l : List ImageEntry) (st : Option (ImageEntry × Nat)) (r : ImageEntry × Nat),
      loopPure di st l = some r →
        (∀ e' ∈ l, ∀ d', dayDist di e' = some d' → r.2 ≤ d') ∧
        (∀ s, st = some s → r.2 ≤ s.2) := by
  intro l
  induction l with
  | nil =>
    intro st r h
    refine ⟨by simp, ?_⟩
    intro s hs
    rw [hs] at h
    have : s = r := Option.some_injective _ h
    rw [this]
  | cons e l ih =>
    intro st r h
    unfold loopPure at h
    obtain ⟨ih1, ih2⟩ := ih (stepPure di st e) r h
    constructor
    · intro e' he' d' hd'
      rcases List.mem_cons.mp he' with he' | he'
      · subst he'
        rcases st with _ | ⟨p, best⟩
        · exact ih2 (e', d') (stepPure_none_of_dist hd')
        · by_cases hlt : d' < best
          · exact ih2 (e', d') (stepPure_some_lt hd' hlt)
          · have h1 : r.2 ≤ best := ih2 (p, best) (stepPure_some_ge hd' hlt)
            exact h1.trans (Nat.le_of_not_lt hlt)
      · exact ih1 e' he' d' hd'
    · intro s hs
      subst hs
      rcases hd : dayDist di e with _ | d
      · exact ih2 s (stepPure_of_dist_none hd)
      · rcases s with ⟨p, best⟩
        by_cases hlt : d < best
        · exact (ih2 (e, d) (stepPure_some_lt hd hlt)).trans (Nat.le_of_lt hlt)
        · exact ih2 (p, best) (stepPure_some_ge hd hlt)

theorem loopPure_first (di : Date) :
    ∀ (l : List ImageEntry) (st : Option (ImageEntry × Nat)) (r : ImageEntry × Nat),
      loopPure di st l = some r →
        st = some r ∨
          ∃ l1 l2, l = l1 ++ r.1 :: l2 ∧ dayDist di r.1 = some r.2 ∧
            (∀ e' ∈ l1, ∀ d', dayDist di e' = some d' → r.2 < d') ∧
            (∀ s, st = some s → r.2 < s.2) := by
  intro l
  induction l with
  | nil =>
    intro st r h
    exact Or.inl h
  | cons e l ih =>
    intro st r h
    unfold loopPure at h
    rcases ih (stepPure di st e) r h with hl | ⟨l1, l2, hsplit, hdist, hpre, hstep⟩
    · rcases hd : dayDist di e with _ | d
      · rw [stepPure_of_dist_none hd] at hl
        exact Or.inl hl
      · rcases st with _ | ⟨p, best⟩
        · rw [stepPure_none_of_dist hd] at hl
          have hr : r = (e, d) := (Option.some_injective _ hl).symm
          refine Or.inr ⟨[], l, by simp [hr], by rw [hr]; exact hd, by simp, ?_⟩
          intro s hs
          exact Option.noConfusion hs
        · by_cases hlt : d < best
          · rw [stepPure_some_lt hd hlt] at hl
            have hr : r = (e, d) := (Option.some_injective _ hl).symm
            refine Or.inr ⟨[], l, by simp [hr], by rw [hr]; exact hd, by simp, ?_⟩
            intro s hs
            have hspb : (p, best) = s := Option.some_injective _ hs
            rw [← hspb, hr]
            exact hlt
          · rw [stepPure_some_ge hd hlt] at hl
            exact Or.inl hl
    · refine Or.inr ⟨e :: l1, l2, by rw [hsplit]; rfl, hdist, ?_, ?_⟩
      · intro e' he' d' hd'
        rcases List.mem_cons.mp he' with he' | he'
        · subst he'
          rcases st with _ | ⟨p, best⟩
          · exact hstep (e', d') (stepPure_none_of_dist hd')
          · by_cases hlt : d' < best
            · exact hstep (e', d') (stepPure_some_lt hd' hlt)
            · have h1 : r.2 < best := hstep (p, best) (stepPure_some_ge hd' hlt)
              exact h1.trans_le (Nat.le_of_not_lt hlt)
        · exact hpre e' he' d' hd'
      · intro s hs
        subst hs
        rcases hd : dayDist di e with _ | d
        · exact hstep s (stepPure_of_dist_none hd)
        · rcases s with ⟨p, best⟩
          by_cases hlt : d < best
          · exact (hstep (e, d) (stepPure_some_lt hd hlt)).trans hlt
          · exact hstep (p, best) (stepPure_some_ge hd hlt)

theorem tier2map_eq_of_find2_none {fm m : List (String × MapVal)} {b : String}
    (h2 : ∀ n, leadingDigits b = some n → find2 n fm = none) : tier2map fm m b = m := by
  unfold tier2map
  rcases hl : leadingDigits b with _ | n
  · rfl
  · simp only [hl, h2 n hl]

theorem processImage_tier3 {fm : List (String × MapVal)} {ent : List ImageEntry}
    {m : List (String × MapVal)} {p ys ms ds : String} {di : Date}
    (h1 : dlookup (basename p) fm = none)
    (h2 : ∀ n, leadingDigits (basename p) = some n → find2 n fm = none)
    (h3 : dlookup (basename p) m = none)
    (h4 : searchYMDparts (basename p).data = some (ys, ms, ds))
    (h5 : strptimeYMD ys ms ds = some di) :
    processImage fm ent m p =
      some (dinsert (basename p) (tier3val (loopPure di none ent)) m) := by
  unfold processImage
  rw [h1]
  rw [tier2map_eq_of_find2_none h2]
  unfold tier3map
  rw [h3]
  simp only [Option.isSome_none, Bool.false_eq_true, if_false, h4, h5, closestLoop_pure di ent]
  rcases loopPure di none ent with _ | ⟨e, diff⟩
  · rfl
  · unfold tier3val
    by_cases hd : diff ≤ 1 <;> simp [hd]

theorem processImage_unparsable {fm : List (String × MapVal)} {ent : List ImageEntry}
    {m : List (String × MapVal)} {p ys ms ds : String}
    (hall : ∀ e ∈ ent, extract_date_from_timestamp e.timestamp = none)
    (h1 : dlookup (basename p) fm = none)
    (h2 : ∀ n, leadingDigits (basename p) = some n → find2 n fm = none)
    (h3 : dlookup (basename p) m = none)
    (h4 : searchYMDparts (basename p).data = some (ys, ms, ds)) :
    processImage fm ent m p = some (dinsert (basename p) nullVal m) := by
  unfold processImage
  rw [h1]
  rw [tier2map_eq_of_find2_none h2]
  unfold tier3map
  rw [h3]
  simp only [Option.isSome_none, Bool.false_eq_true, if_false, h4,
    closestLoop_skipAll ent none hall]

theorem tier2map_nil (m : List (String × MapVal)) (b : String) : tier2map [] m b = m := by
  unfold tier2map
  rcases hl : leadingDigits b with _ | n
  · rfl
  · simp only [hl]
    rfl

theorem processImage_nil (m : List (String × MapVal)) (p : String) :
    processImage [] [] m p = some m ∨
      processImage [] [] m p = some (dinsert (basename p) nullVal m) := by
  unfold processImage
  simp only [dlookup, tier2map_nil]
  unfold tier3map
  by_cases hg : (dlookup (basename p) m).isSome
  · rw [if_pos hg]
    exact Or.inl rfl
  · rw [if_neg hg]
    rcases h4 : searchYMDparts (basename p).data with _ | ⟨ys, ms, ds⟩
    · simp [h4]
    · simp [h4, closestLoop]

theorem mapLoop_nil_allNull :
    ∀ (ps : List String) (m : List (String × MapVal)),
      (∀ k v, dlookup k m = some v → v = nullVal) →
        ∃ mf, mapLoop [] [] m ps = some mf ∧ ∀ k v, dlookup k mf = some v → v = nullVal := by
  intro ps
  induction ps with
  | nil =>
    intro m hm
    exact ⟨m, rfl, hm⟩
  | cons p ps ih =>
    intro m hm
    have hstep : ∀ m', processImage [] [] m p = some m' →
        ∀ k v, dlookup k m' = some v → v = nullVal := by
      intro m' h k v hv
      rcases processImage_nil m p with h1 | h1
      · rw [h1] at h
        have : m = m' := Option.some_injective _ h
        rw [← this] at hv
        exact hm k v hv
      · rw [h1] at h
        have : dinsert (basename p) nullVal m = m' := Option.some_injective _ h
        rw [← this] at hv
        rcases dlookup_dinsert_cases hv with hv | hv
        · exact hv
        · exact hm k v hv
    rcases processImage_nil m p with h1 | h1
    · obtain ⟨mf, hmf, hnull⟩ := ih m hm
      refine ⟨mf, ?_, hnull⟩
      unfold mapLoop
      rw [h1]
      exact hmf
    · obtain ⟨mf, hmf, hnull⟩ :=
        ih (dinsert (basename p) nullVal m) (hstep _ h1)
      refine ⟨mf, ?_, hnull⟩
      unfold mapLoop
      rw [h1]
      exact hmf

theorem not_digit_of_pythonIsSpace {c : Char} (h : pythonIsSpace c = true) :
    c.isDigit = false := by
  unfold pythonIsSpace at h
  simp only [Bool.or_eq_true, decide_eq_true_eq] at h
  rcases h with ((((h | h) | h) | h) | h) | h
  all_goals (subst h; decide)

theorem takeWhile_append_stop {p : Char → Bool} :
    ∀ (d1 : List Char) (w : Char) (d2 : List Char), d1.all p → p w = false →
      (d1 ++ w :: d2).takeWhile p = d1 := by
  intro d1
  induction d1 with
  | nil =>
    intro w d2 _ hw
    simp [List.takeWhile, hw]
  | cons c d1 ih =>
    intro w d2 hall hw
    simp only [List.all_cons, Bool.and_eq_true] at hall
    simp [List.takeWhile, hall.1, ih w d2 hall.2 hw]

theorem dropWhile_append_stop {p : Char → Bool} :
    ∀ (d1 : List Char) (w : Char) (d2 : List Char), d1.all p → p w = false →
      (d1 ++ w :: d2).dropWhile p = w :: d2 := by
  intro d1
  induction d1 with
  | nil =>
    intro w d2 _ hw
    simp [List.dropWhile, hw]
  | cons c d1 ih =>
    intro w d2 hall hw
    simp only [List.all_cons, Bool.and_eq_true] at hall
    simp [List.dropWhile, hall.1, ih w d2 hall.2 hw]

theorem drop_length_takeWhile (p : Char → Bool) :
    ∀ l : List Char, l.drop (l.takeWhile p).length = l.dropWhile p := by
  intro l
  induction l with
  | nil => rfl
  | cons c l ih =>
    by_cases hc : p c
    · simp [List.takeWhile, List.dropWhile, hc, ih]
    · simp [List.takeWhile, List.dropWhile, hc]

theorem labelIsPhone_iff (label : String) :
    labelIsPhone label.data = true ↔ specLabelShapeWs label := by
  constructor
  · intro h
    unfold labelIsPhone at h
    rcases hd : label.data with _ | ⟨c, rest⟩
    · rw [hd] at h
      exact absurd h (by simp)
    · rw [hd] at h
      by_cases hc : c = '+'
      · subst hc
        simp only at h
        rcases hdrop : rest.drop (rest.takeWhile Char.isDigit).length with _ | ⟨w, rest2⟩
        · rw [hdrop] at h
          exact absurd h (by simp)
        · rw [hdrop] at h
          simp only [Bool.and_eq_true, Bool.not_eq_true'] at h
          obtain ⟨⟨⟨h1, h2⟩, h3⟩, h4⟩ := h
          rw [drop_length_takeWhile] at hdrop
          refine ⟨rest.takeWhile Char.isDigit, w, rest2, ?_, ?_, ?_, ?_, h4, h2⟩
          · rw [hd]
            have := List.takeWhile_append_dropWhile Char.isDigit rest
            rw [hdrop] at this
            rw [this]
          · simpa using h1
          · simpa using h3
          · exact List.all_takeWhile
      · exfalso
        rcases c
        simp_all [labelIsPhone]
  · rintro ⟨d1, w, d2, hdata, hd1, hd2, hall1, hall2, hw⟩
    unfold labelIsPhone
    rw [hdata]
    simp only
    rw [takeWhile_append_stop d1 w d2 hall1 (not_digit_of_pythonIsSpace hw)]
    rw [List.drop_left]
    simp [hd1, hd2, hw, hall2]

/-- The inclusion condition of the month filter for one file: embedded-date
year/month strings compared to the target strings, else modification-time
year/month compared to the numeric target. -/
def monthCond (target_year target_month : String) (y m : Nat) (f : ImgFile) : Prop :=
  match searchYMDparts (basename f.path).data with
  | some (fy, fmn, _) => fy = target_year ∧ fmn = target_month
  | none => f.mtimeYear = y ∧ f.mtimeMonth = m

/-- Boolean form of `monthCond`, used for its decidability. -/
def monthCondB (target_year target_month : String) (y m : Nat) (f : ImgFile) : Bool :=
  match searchYMDparts (basename f.path).data with
  | some (fy, fmn, _) => fy == target_year && fmn == target_month
  | none => f.mtimeYear == y && f.mtimeMonth == m

instance monthCondDecidable (ty tm : String) (y m : Nat) (f : ImgFile) :
    Decidable (monthCond ty tm y m f) :=
  decidable_of_iff (monthCondB ty tm y m f = true) (by
    unfold monthCond monthCondB
    rcases searchYMDparts (basename f.path).data with _ | ⟨fy, fmn, fd⟩ <;> simp)

theorem filterLoop_mem {ty tm : String} {y m : Nat}
    (hy : pyInt ty = some y) (hm : pyInt tm = some m) :
    ∀ (fs : List ImgFile) (out : List ImgFile), filterLoop ty tm fs = some out →
      ∀ g, g ∈ out ↔ g ∈ fs ∧ monthCond ty tm y m g := by
  intro fs
  induction fs with
  | nil =>
    intro out h g
    unfold filterLoop at h
    have : [] = out := Option.some_injective _ h
    rw [← this]
    simp
  | cons f fs ih =>
    intro out h g
    unfold filterLoop at h
    rcases hs : searchYMDparts (basename f.path).data with _ | ⟨fy, fmn, fd⟩
    · rw [hs, hy, hm] at h
      rcases Option.map_eq_some'.mp h with ⟨rest, hrest, hout⟩
      subst hout
      have ihg := ih rest hrest g
      by_cases hcond : f.mtimeYear = y ∧ f.mtimeMonth = m
      · rw [if_pos hcond]
        simp only [List.mem_cons, ihg]
        constructor
        · rintro (rfl | ⟨hgf, hcg⟩)
          · exact ⟨Or.inl rfl, by simp only [monthCond, hs]; exact hcond⟩
          · exact ⟨Or.inr hgf, hcg⟩
        · rintro ⟨rfl | hgf, hcg⟩
          · exact Or.inl rfl
          · exact Or.inr ⟨hgf, hcg⟩
      · rw [if_neg hcond, ihg]
        constructor
        · rintro ⟨hgf, hcg⟩
          exact ⟨List.mem_cons_of_mem f hgf, hcg⟩
        · rintro ⟨hgm, hcg⟩
          rcases List.mem_cons.mp hgm with rfl | hgf
          · exfalso
            simp only [monthCond, hs] at hcg
            exact hcond hcg
          · exact ⟨hgf, hcg⟩
    · rw [hs] at h
      rcases Option.map_eq_some'.mp h with ⟨rest, hrest, hout⟩
      subst hout
      have ihg := ih rest hrest g
      by_cases hcond : fy = ty ∧ fmn = tm
      · rw [if_pos hcond]
        simp only [List.mem_cons, ihg]
        constructor
        · rintro (rfl | ⟨hgf, hcg⟩)
          · exact ⟨Or.inl rfl, by simp only [monthCond, hs]; exact hcond⟩
          · exact ⟨Or.inr hgf, hcg⟩
        · rintro ⟨rfl | hgf, hcg⟩
          · exact Or.inl rfl
          · exact Or.inr ⟨hgf, hcg⟩
      · rw [if_neg hcond, ihg]
        constructor
        · rintro ⟨hgf, hcg⟩
          exact ⟨List.mem_cons_of_mem f hgf, hcg⟩
        · rintro ⟨hgm, hcg⟩
          rcases List.mem_cons.mp hgm with rfl | hgf
          · exfalso
            simp only [monthCond, hs] at hcg
            exact hcond hcg
          · exact ⟨hgf, hcg⟩

theorem dlookup_build_aux (fn : String) (hfn : fn ≠ "") :
    ∀ (ent : List ImageEntry) (m0 : List (String × MapVal)),
      dlookup fn
          (ent.foldl
            (fun fm entry =>
              if entry.image_filename ≠ "" then
                dinsert entry.image_filename (entryVal entry) fm
              else fm)
            m0) =
        match ent.reverse.find? (fun e => e.image_filename == fn) with
        | some e => some (entryVal e)
        | none => dlookup fn m0 := by
  intro ent
  induction ent with
  | nil => intro m0; simp
  | cons e ent ih =>
    intro m0
    rw [List.foldl_cons, ih, List.reverse_cons, List.find?_append]
    rcases hf : ent.reverse.find? (fun e => e.image_filename == fn) with _ | r
    · simp only [hf, Option.none_or]
      by_cases he : e.image_filename = fn
      · have hne : e.image_filename ≠ "" := by rw [he]; exact hfn
        simp only [List.find?, he]
        rw [if_pos hfn, dlookup_dinsert_self]
        simp
      · have hb : (e.image_filename == fn) = false := by simpa using he
        simp only [List.find?, hb]
        by_cases hne : e.image_filename ≠ ""
        · rw [if_pos hne, dlookup_dinsert_ne (fun hh => he hh.symm)]
        · rw [if_neg hne]
    · simp [hf]

theorem dlookup_build (fn : String) (hfn : fn ≠ "") (ent : List ImageEntry) :
    dlookup fn (build_filename_mapping ent) =
      (ent.reverse.find? (fun e => e.image_filename == fn)).map entryVal := by
  unfold build_filename_mapping
  rw [dlookup_build_aux fn hfn ent []]
  rcases hr : ent.reverse.find? (fun e => e.image_filename == fn) with _ | r <;>
    simp [hr, dlookup]

/-- Claim C1, counterexample: on the input filename set containing only
`receipt.jpg` (no exact match, no leading digits, no embedded date) and no
events, the correlator succeeds but returns a mapping with no entry at all
for that filename, refuting the claim that every input filename receives
exactly one (possibly all-null) entry. -/
theorem C1_counterexample :
    (map_images_to_contacts ["receipt.jpg"] []).map (fun m => dlookup "receipt.jpg" m) =
      some none := by decide

/-- Claim C1, amended: when the correlator returns a mapping, every filename
appears at most once as a key, and an input filename can lack an entry only
when all of the following hold: it has no exact match in the event filename
map, no leading-digit-run match, and no embedded `YYYY-MM-DD` date. In
particular every input filename with an embedded date (and every filename
some tier matches) receives exactly one entry. -/
theorem C1_amended_totality {image_files : List String} {image_entries : List ImageEntry}
    {m : List (String × MapVal)}
    (h : map_images_to_contacts image_files image_entries = some m) :
    (dkeys m).Nodup ∧
      ∀ p ∈ image_files, dlookup (basename p) m = none →
        dlookup (basename p) (build_filename_mapping image_entries) = none ∧
          (∀ n, leadingDigits (basename p) = some n →
            find2 n (build_filename_mapping image_entries) = none) ∧
          searchYMDparts (basename p).data = none := by
  unfold map_images_to_contacts at h
  constructor
  · exact mapLoop_nodup image_files [] m h (by simp [dkeys])
  · intro p hp hn
    exact mapLoop_absent image_files [] m p h hp hn

/-- Claim C1, witness for the amended theorem at a concrete input: a dated
but unmatched filename receives an all-null entry while a dateless unmatched
filename receives none; keys are unique. -/
theorem C1_amended_witness :
    (dkeys [("a-2025-04-27.jpg", nullVal)]).Nodup ∧
      ∀ p ∈ ["a-2025-04-27.jpg", "receipt.jpg"],
        dlookup (basename p) [("a-2025-04-27.jpg", nullVal)] = none →
          dlookup (basename p) (build_filename_mapping []) = none ∧
            (∀ n, leadingDigits (basename p) = some n →
              find2 n (build_filename_mapping []) = none) ∧
            searchYMDparts (basename p).data = none :=
  C1_amended_totality (by decide)

/-- Claim C2: the three matching tiers run in the strict order exact match,
leading-digit match, closest-date match, first success deciding the entry:
an exact match maps the filename to the event filename map's value
regardless of anything else; a leading-digit match (with no exact match)
likewise; and in the full correlator an exact match's contact is what the
final mapping records for that filename. -/
theorem C2_tier_order (fm : List (String × MapVal)) (image_entries : List ImageEntry)
    (m : List (String × MapVal)) (p : String) :
    (∀ ci, dlookup (basename p) fm = some ci →
      processImage fm image_entries m p = some (dinsert (basename p) ci m)) ∧
    (∀ n ci, dlookup (basename p) fm = none → leadingDigits (basename p) = some n →
      find2 n fm = some ci →
      processImage fm image_entries m p = some (dinsert (basename p) ci m)) ∧
    (∀ image_files mf ci, map_images_to_contacts image_files image_entries = some mf →
      p ∈ image_files → dlookup (basename p) (build_filename_mapping image_entries) = some ci →
      dlookup (basename p) mf = some ci) := by
  refine ⟨fun ci h => processImage_exact h,
    fun n ci h1 h2 h3 => processImage_numeric h1 h2 h3, ?_⟩
  intro image_files mf ci h hp hfm
  unfold map_images_to_contacts at h
  exact mapLoop_exact image_files [] mf p ci h hp hfm

/-- Claim C2, witness: a filename with an exact match and an equally
plausible closest-date candidate is recorded with the exact match's
contact. -/
theorem C2_witness :
    dlookup "00000001-PHOTO-2025-04-27-12-44-28.jpg"
        [("00000001-PHOTO-2025-04-27-12-44-28.jpg",
          (⟨some "John Doe", none, some "27/04/25, 12:44:30"⟩ : MapVal))] =
      some ⟨some "John Doe", none, some "27/04/25, 12:44:30"⟩ :=
  (C2_tier_order [] [⟨"27/04/25, 12:44:30", "John Doe", ⟨"John Doe", none⟩,
      "27/04/25, 12:44:30", "00000001-PHOTO-2025-04-27-12-44-28.jpg"⟩,
    ⟨"27/04/25, 13:00:00", "Jane", ⟨"Jane", none⟩, "27/04/25, 13:00:00",
      "99999999-PHOTO-2025-04-27-13-00-00.jpg"⟩] []
      "00000001-PHOTO-2025-04-27-12-44-28.jpg").2.2
    ["00000001-PHOTO-2025-04-27-12-44-28.jpg"]
    [("00000001-PHOTO-2025-04-27-12-44-28.jpg",
      ⟨some "John Doe", none, some "27/04/25, 12:44:30"⟩)]
    ⟨some "John Doe", none, some "27/04/25, 12:44:30"⟩
    (by decide) (by decide) (by decide)

/-- Claim C3: in the closest-date fallback, for an image with a valid
embedded date reaching the tier unmapped, the recorded entry is determined
by the loop's final state: the selected event has minimal absolute
day-distance among all events with parsable timestamps, the earliest such
event in transcript order wins ties (all strictly-earlier candidates have
strictly greater distance), and the match is accepted exactly when the
minimum distance is at most one day, an all-null entry being recorded
otherwise (also when no event has a parsable timestamp). -/
theorem C3_closest_date {fm : List (String × MapVal)} {image_entries : List ImageEntry}
    {m : List (String × MapVal)} {p ys ms ds : String} {di : Date}
    (h1 : dlookup (basename p) fm = none)
    (h2 : ∀ n, leadingDigits (basename p) = some n → find2 n fm = none)
    (h3 : dlookup (basename p) m = none)
    (h4 : searchYMDparts (basename p).data = some (ys, ms, ds))
    (h5 : strptimeYMD ys ms ds = some di) :
    processImage fm image_entries m p =
      some (dinsert (basename p) (tier3val (loopPure di none image_entries)) m) ∧
    (loopPure di none image_entries = none →
      ∀ e ∈ image_entries, dayDist di e = none) ∧
    (∀ e diff, loopPure di none image_entries = some (e, diff) →
      dayDist di e = some diff ∧
      (∀ e' ∈ image_entries, ∀ d', dayDist di e' = some d' → diff ≤ d') ∧
      ∃ l1 l2, image_entries = l1 ++ e :: l2 ∧
        ∀ e' ∈ l1, ∀ d', dayDist di e' = some d' → diff < d') := by
  refine ⟨processImage_tier3 h1 h2 h3 h4 h5, ?_, ?_⟩
  · intro hnone e he
    exact (loopPure_none di image_entries none hnone).2 e he
  · intro e diff hsome
    have hmin := loopPure_min di image_entries none (e, diff) hsome
    rcases loopPure_first di image_entries none (e, diff) hsome with hfl | hfr
    · exact absurd hfl (by simp)
    · obtain ⟨l1, l2, hsplit, hdist, hpre, _⟩ := hfr
      exact ⟨hdist, fun e' he' d' hd' => hmin.1 e' he' d' hd', l1, l2, hsplit, hpre⟩

/-- Claim C3, witness: image dated 2025-04-27, events dated 2025-04-26 and
2025-04-28 (both at distance one day): the tier accepts, and the
earlier-discovered event is the one selected. -/
theorem C3_witness :
    processImage [] [⟨"26/04/25, 10:00:00", "Alice", ⟨"Alice", none⟩,
        "26/04/25, 10:00:00", "f.jpg"⟩,
      ⟨"28/04/25, 11:00:00", "Bob", ⟨"Bob", none⟩, "28/04/25, 11:00:00", "g.jpg"⟩] []
        "x-2025-04-27.jpg" =
      some (dinsert "x-2025-04-27.jpg"
        (tier3val (loopPure ⟨2025, 4, 27⟩ none
          [⟨"26/04/25, 10:00:00", "Alice", ⟨"Alice", none⟩, "26/04/25, 10:00:00", "f.jpg"⟩,
            ⟨"28/04/25, 11:00:00", "Bob", ⟨"Bob", none⟩, "28/04/25, 11:00:00", "g.jpg"⟩])) []) ∧
    tier3val (loopPure ⟨2025, 4, 27⟩ none
        [⟨"26/04/25, 10:00:00", "Alice", ⟨"Alice", none⟩, "26/04/25, 10:00:00", "f.jpg"⟩,
          ⟨"28/04/25, 11:00:00", "Bob", ⟨"Bob", none⟩, "28/04/25, 11:00:00", "g.jpg"⟩]) =
      ⟨some "Alice", none, some "26/04/25, 10:00:00"⟩ :=
  ⟨(@C3_closest_date []
      [⟨"26/04/25, 10:00:00", "Alice", ⟨"Alice", none⟩, "26/04/25, 10:00:00", "f.jpg"⟩,
        ⟨"28/04/25, 11:00:00", "Bob", ⟨"Bob", none⟩, "28/04/25, 11:00:00", "g.jpg"⟩]
      [] "x-2025-04-27.jpg" "2025" "04" "27" ⟨2025, 4, 27⟩
      (by decide)
      (by
        intro n hn
        have hld : leadingDigits (basename "x-2025-04-27.jpg") = none := by decide
        rw [hld] at hn
        exact Option.noConfusion hn)
      (by decide) (by decide) (by decide)).1,
    by decide⟩

/-- Claim C4: a missing transcript file yields the untouched empty state
(empty contact table, empty timestamp map, no events) without raising, and
downstream correlation over an empty event sequence succeeds, every entry it
records being all-null. -/
theorem C4_missing_file :
    (∀ lines, parse_chat_file false lines = initParse) ∧
      ∀ image_files, ∃ m, map_images_to_contacts image_files [] = some m ∧
        ∀ k v, dlookup k m = some v → v = nullVal := by
  refine ⟨fun lines => rfl, ?_⟩
  intro image_files
  unfold map_images_to_contacts
  exact mapLoop_nil_allNull image_files []
    (fun k v hv => by simp [dlookup] at hv)

/-- Claim C4, witness at a concrete input. -/
theorem C4_witness :
    parse_chat_file false ["[27/04/25, 12:44:30] John: hi"] = initParse ∧
      ∃ m, map_images_to_contacts ["a-2025-04-27.jpg"] [] = some m ∧
        ∀ k v, dlookup k m = some v → v = nullVal :=
  ⟨C4_missing_file.1 ["[27/04/25, 12:44:30] John: hi"],
    C4_missing_file.2 ["a-2025-04-27.jpg"]⟩

/-- Claim C5, counterexample: the sender label made of a plus, digits, one
TAB and digits does not have the claim's shape "plus sign, digits, one
space, digits", and the claim therefore predicts a search of the (empty)
message body returning null; the code instead returns the label verbatim,
because the source pattern accepts any whitespace character. -/
theorem C5_counterexample :
    extract_phone_number "+91\t9876543210" "" = some "+91\t9876543210" ∧
      ¬ specLabelShape "+91\t9876543210" ∧ searchPhone "".data = none := by
  refine ⟨by decide, ?_, by decide⟩
  rintro ⟨d1, d2, hdata, -, -, -, -⟩
  have hmem : ' ' ∈ "+91\t9876543210".data := by
    rw [hdata]
    simp
  exact absurd hmem (by decide)

/-- Claim C5, amended: the label is returned verbatim exactly when it has
the shape plus sign, digits, one whitespace character, digits; otherwise
the result is the first phone-shaped match in the message body; the claim's
two examples hold as stated. -/
theorem C5_amended_phone (label msg : String) :
    (specLabelShapeWs label → extract_phone_number label msg = some label) ∧
    (¬ specLabelShapeWs label → extract_phone_number label msg = searchPhone msg.data) ∧
    extract_phone_number "+91 9876543210" "" = some "+91 9876543210" ∧
    extract_phone_number "John Doe" "paid via 9876543210" = some "9876543210" := by
  refine ⟨?_, ?_, by decide, by decide⟩
  · intro hs
    unfold extract_phone_number
    rw [if_pos ((labelIsPhone_iff label).mpr hs)]
  · intro hs
    unfold extract_phone_number
    rw [if_neg fun hb => hs ((labelIsPhone_iff label).mp hb)]

/-- Claim C5, witness for the amended theorem: a whitespace-shaped label is
returned verbatim. -/
theorem C5_amended_witness :
    extract_phone_number "+91 9876543210" "bbb" = some "+91 9876543210" :=
  (C5_amended_phone "+91 9876543210" "bbb").1
    ⟨['9', '1'], ' ', ['9', '8', '7', '6', '5', '4', '3', '2', '1', '0'],
      by decide, by decide, by decide, by decide, by decide, by decide⟩

/-- Claim C6: under a well-formed `YYYY-MM` target, a file is kept by the
month filter exactly when it is an input file and either its basename's
embedded date matches the target year and month as strings, or (with no
embedded date) its modification time's year and month match the target
numerically. -/
theorem C6_month_filter {image_files : List ImgFile} {month ty tm : String} {y m : Nat}
    {out : List ImgFile}
    (hsplit : splitOnChar '-' month = [ty, tm])
    (hy : pyInt ty = some y) (hm : pyInt tm = some m)
    (h : filter_images_by_month image_files month = some out) :
    ∀ g, g ∈ out ↔ g ∈ image_files ∧ monthCond ty tm y m g := by
  unfold filter_images_by_month at h
  rw [hsplit] at h
  exact filterLoop_mem hy hm image_files out h

/-- Claim C6, witness: the file embedding 2025-04-27 is kept under target
2025-04; its stale modification time is not consulted. -/
theorem C6_witness :
    (⟨"a/x-2025-04-27.jpg", 2024, 1⟩ : ImgFile) ∈
        [(⟨"a/x-2025-04-27.jpg", 2024, 1⟩ : ImgFile), ⟨"b/plain.jpg", 2025, 4⟩] ↔
      (⟨"a/x-2025-04-27.jpg", 2024, 1⟩ : ImgFile) ∈
          [(⟨"a/x-2025-04-27.jpg", 2024, 1⟩ : ImgFile), ⟨"b/plain.jpg", 2025, 4⟩,
            ⟨"c/y-2025-05-01.jpg", 2025, 4⟩] ∧
        monthCond "2025" "04" 2025 4 ⟨"a/x-2025-04-27.jpg", 2024, 1⟩ :=
  @C6_month_filter
    [⟨"a/x-2025-04-27.jpg", 2024, 1⟩, ⟨"b/plain.jpg", 2025, 4⟩,
      ⟨"c/y-2025-05-01.jpg", 2025, 4⟩]
    "2025-04" "2025" "04" 2025 4
    [⟨"a/x-2025-04-27.jpg", 2024, 1⟩, ⟨"b/plain.jpg", 2025, 4⟩]
    (by decide) (by decide) (by decide) (by decide)
    ⟨"a/x-2025-04-27.jpg", 2024, 1⟩

/-- Claim C7: the contact table maps each sender name to exactly the contact
created from the first transcript line bearing that sender (its phone
extracted from that line), independently of all later lines, and each name
occurs at most once as a key. -/
theorem C7_contacts_first_wins (lines : List String) (name : String) :
    dlookup name (parse_chat_file true lines).contacts =
      (firstMsgOf name lines).map
        (fun msg => (⟨name, extract_phone_number name msg⟩ : Contact)) ∧
      (dkeys (parse_chat_file true lines).contacts).Nodup := by
  constructor
  · rw [parse_chat_file_true, foldl_processLine_contacts]
    simp [initParse, dlookup]
  · rw [parse_chat_file_true]
    exact foldl_processLine_contacts_nodup lines initParse (by simp [initParse, dkeys])

/-- Claim C8: every matched line with an attachment contributes one event,
duplicates included, in line order (the emitted filename sequence equals the
per-line extraction); while the timestamp map keyed by filename holds the
last occurrence's timestamp, and the tier-1 filename map holds the last
occurrence's contact data. -/
theorem C8_duplicates (lines : List String) (fn : String) (ent : List ImageEntry)
    (hfn : fn ≠ "") :
    (parse_chat_file true lines).image_entries.map (fun e => e.image_filename) =
      (lines.filterMap attachmentOf).map Prod.fst ∧
    dlookup fn (parse_chat_file true lines).message_timestamps =
      ((lines.filterMap attachmentOf).reverse.find? (fun q => q.1 == fn)).map Prod.snd ∧
    dlookup fn (build_filename_mapping ent) =
      (ent.reverse.find? (fun e => e.image_filename == fn)).map entryVal := by
  refine ⟨?_, ?_, dlookup_build fn hfn ent⟩
  · rw [parse_chat_file_true, foldl_processLine_events]
    rfl
  · rw [parse_chat_file_true, foldl_processLine_mts, dlookup_foldl_dinsert]
    rcases hr : (lines.filterMap attachmentOf).reverse.find? (fun q => q.1 == fn)
        with _ | q <;> simp [hr, initParse, dlookup]

/-- Claim C8, witness: with two entries carrying the same filename, the
tier-1 filename map holds the second (last) occurrence's data. -/
theorem C8_witness :
    dlookup "f.jpg" (build_filename_mapping
        [⟨"t1", "A", ⟨"A", none⟩, "t1", "f.jpg"⟩,
          ⟨"t2", "B", ⟨"B", none⟩, "t2", "f.jpg"⟩]) =
      some ⟨some "B", none, some "t2"⟩ := by
  rw [(C8_duplicates [] "f.jpg"
    [⟨"t1", "A", ⟨"A", none⟩, "t1", "f.jpg"⟩,
      ⟨"t2", "B", ⟨"B", none⟩, "t2", "f.jpg"⟩] (by decide)).2.2]
  decide

/-- Claim C9: parsing and correlation are deterministic: equal transcript
contents give identical parse results, and equal transcript and image-file
inputs give identical contact mappings. In this embedding both are pure
functions of their inputs, so the two-run property holds by congruence. -/
theorem C9_determinism (fileExists : Bool) (lines1 lines2 : List String)
    (image_files1 image_files2 : List String)
    (hl : lines1 = lines2) (hf : image_files1 = image_files2) :
    parse_chat_file fileExists lines1 = parse_chat_file fileExists lines2 ∧
      map_images_to_contacts image_files1 (parse_chat_file fileExists lines1).image_entries =
        map_images_to_contacts image_files2 (parse_chat_file fileExists lines2).image_entries := by
  subst hl
  subst hf
  exact ⟨rfl, rfl⟩

/-- Claim C9, witness at a concrete input. -/
theorem C9_witness :
    parse_chat_file true ["[27/04/25, 12:44:30] John: hi"] =
        parse_chat_file true ["[27/04/25, 12:44:30] John: hi"] ∧
      map_images_to_contacts ["a.jpg"]
          (parse_chat_file true ["[27/04/25, 12:44:30] John: hi"]).image_entries =
        map_images_to_contacts ["a.jpg"]
          (parse_chat_file true ["[27/04/25, 12:44:30] John: hi"]).image_entries :=
  C9_determinism true _ _ _ _ rfl rfl

/-- Claim C10: an event whose timestamp parses under neither accepted format
is skipped by the closest-date loop without error (the loop state is
unchanged), a sequence of only unparsable timestamps leaves the loop at its
initial state, and an image with an embedded date reaching the fallback tier
against such a sequence is recorded unmatched (all-null entry). -/
theorem C10_unparsable {image_entries : List ImageEntry}
    (hall : ∀ e ∈ image_entries, extract_date_from_timestamp e.timestamp = none) :
    (∀ pImg st e, extract_date_from_timestamp e.timestamp = none →
      closestStep pImg st e = some st) ∧
    (∀ pImg st, closestLoop pImg st image_entries = some st) ∧
    (∀ fm m p ys ms ds,
      dlookup (basename p) fm = none →
      (∀ n, leadingDigits (basename p) = some n → find2 n fm = none) →
      dlookup (basename p) m = none →
      searchYMDparts (basename p).data = some (ys, ms, ds) →
      processImage fm image_entries m p = some (dinsert (basename p) nullVal m)) :=
  ⟨fun _ _st _ hd => closestStep_skip hd,
    fun _ st => closestLoop_skipAll image_entries st hall,
    fun _fm _m _p _ys _ms _ds h1 h2 h3 h4 => processImage_unparsable hall h1 h2 h3 h4⟩

/-- Claim C10, witness: one event with timestamp `yesterday` (unparsable
under both formats) is skipped, and the dated image is recorded with an
all-null entry. -/
theorem C10_witness :
    closestLoop none none [⟨"yesterday", "A", ⟨"A", none⟩, "yesterday", "f.jpg"⟩] =
        some none ∧
      processImage [] [⟨"yesterday", "A", ⟨"A", none⟩, "yesterday", "f.jpg"⟩] []
          "x-2025-04-27.jpg" =
        some (dinsert "x-2025-04-27.jpg" nullVal []) :=
  have hall : ∀ e ∈ [(⟨"yesterday", "A", ⟨"A", none⟩, "yesterday", "f.jpg"⟩ : ImageEntry)],
      extract_date_from_timestamp e.timestamp = none := by decide
  ⟨(C10_unparsable hall).2.1 none none,
    (C10_unparsable hall).2.2 [] [] "x-2025-04-27.jpg" "2025" "04" "27"
      (by decide)
      (by
        intro n hn
        have hld : leadingDigits (basename "x-2025-04-27.jpg") = none := by decide
        rw [hld] at hn
        exact Option.noConfusion hn)
      (by decide) (by decide)⟩

end LlamaOcr
